import Mathlib

/-!
# IDFix FOTA: the firmware update transaction engine

A shallow embedding of `FirmwareUpdater` (src/FirmwareUpdater.h, src/FirmwareUpdater.cpp).

Conventions of the embedding.

* The target is the ESP32 family: `size_t`, `uint32_t` and `esp_ota_handle_t` are unsigned
  32-bit words.  They are natural numbers here and every operation of the source that can
  leave the word is followed by an explicit reduction modulo `2^32`.
* A pointer is an `Option`; `nullptr` is `none`.  Dereferencing `nullptr` has no result:
  the functions that may do so return an `Option`, and `none` stands for the aborted run.
* `new` never yields `nullptr`: it yields storage or it does not return (it throws
  `std::bad_alloc`, or aborts where exceptions are disabled).  The `nullptr` branches that
  follow an allocation in the source are therefore unreachable and have no counterpart here.
  The arrays whose size is fixed by the program (`HASH_READ_BUFFER_SIZE`) or chosen by the
  caller (`setMagicBytes`, `checkMagicBytes`) are taken to be granted.  The signature buffer
  `new unsigned char[signatureLength]` has the size the image asks for, up to `2^32 − 1`
  bytes: whether it is granted is the answer of `Env.operator_new`, and when it is refused
  the run has no result (`none`), like a run that dereferences `nullptr`.
* Logging (`ESP_LOG*`) has no effect on the state and is left out.
* The platform primitives (`esp_ota_*`, `esp_partition_read`) are not part of the
  repository.  They are the fields of `Env`; each takes the history of all earlier
  platform calls, so a primitive may answer differently every time it is called.
* Every call of a platform primitive, of the hasher and of the verifier is appended to
  `State.trace`, together with its result.  `operator new` is asked with the history but
  leaves no entry in it.
-/

namespace IDFix.FOTA

/-! ## Machine words, bytes, error codes -/

/-- Result type of the ESP-IDF primitives. -/
abbrev esp_err_t := Int

/-- The success code of ESP-IDF. -/
def ESP_OK : esp_err_t := 0

/-- The generic failure code of ESP-IDF. -/
def ESP_FAIL : esp_err_t := -1

/-- Number of values of a 32-bit machine word (`size_t`, `uint32_t`). -/
def WORD : Nat := 2 ^ 32

/-- Unsigned 32-bit addition. -/
def wadd (a b : Nat) : Nat := (a + b) % WORD

/-- Unsigned 32-bit subtraction: the difference of the two words, taken modulo `2^32`
when it is negative. -/
def wsub (a b : Nat) : Nat :=
  if b % WORD ≤ a % WORD then a % WORD - b % WORD else WORD - (b % WORD - a % WORD)

/-- The value of `sizeof(uint32_t)`. -/
def SIZEOF_UINT32 : Nat := 4

/-- The constant `HASH_READ_BUFFER_SIZE` of FirmwareUpdater.cpp. -/
def HASH_READ_BUFFER_SIZE : Nat := 256

/-- The `uint32_t` stored little-endian in a 4-byte buffer (the ESP32 is little-endian). -/
def le32 (buf : List Nat) : Nat :=
  buf.getD 0 0 % 256 + 256 * (buf.getD 1 0 % 256) + 65536 * (buf.getD 2 0 % 256)
    + 16777216 * (buf.getD 3 0 % 256)

/-- The `len` bytes of a slot image starting at offset `off`. -/
def slice (flash : List Nat) (off len : Nat) : List Nat := (flash.drop off).take len

/-- A flash partition, identified by the address of its `esp_partition_t` record. -/
abbrev Partition := Nat

/-! ## External collaborators -/

/-- Modelled from the spec: `IDFix::Crypto::HashAlgorithm` (HashAlgorithm.h is not part of
the sources).  The spec describes a streaming digest `begin → addData* → end → (digest,
length)`: the digest is a function of the data added since `begin`. -/
structure HashAlgorithm where
  /-- The digest of the data added between `begin()` and `end()`. -/
  getHash : List Nat → List Nat
  /-- The length of the digest. -/
  hashLength : Nat

/-- Modelled from the spec: `IDFix::Crypto::SignatureVerifier` (SignatureVerifier.h is not
part of the sources): `verify(digest, digest_len, signature, signature_len)`, where the
result `0` means verified. -/
structure SignatureVerifier where
  /-- The result of `verify(hash, hashLength, signature, signatureLength)`. -/
  verify : List Nat → Nat → List Nat → Nat → Int

/-- One call of an external primitive, with its arguments and its result. -/
inductive Event where
  | ota_get_next_update_partition (result : Option Partition)
  | ota_begin (partition : Partition) (imageSize : Nat) (result : esp_err_t) (handle : Nat)
  | ota_write (handle : Nat) (data : List Nat) (size : Nat) (result : esp_err_t)
  | ota_end (handle : Nat) (result : esp_err_t)
  | ota_set_boot_partition (partition : Option Partition) (result : esp_err_t)
  | partition_read (partition : Option Partition) (offset size : Nat)
      (result : Option (List Nat))
  | hash_begin
  | hash_addData (data : List Nat)
  | hash_end
  | verify (hash : List Nat) (hashLength : Nat) (signature : List Nat)
      (signatureLength : Nat) (result : Int)
  deriving DecidableEq, Repr

/-- The platform: every primitive maps the history of platform calls and its arguments to
its result.  `esp_partition_read` yields `none` for any result other than `ESP_OK`, and the
bytes it stored in the destination buffer otherwise.  `operator_new` is the heap: `true`
when `new unsigned char[size]` yields storage, `false` when it does not return. -/
structure Env where
  esp_ota_get_next_update_partition : List Event → Option Partition
  esp_ota_begin : List Event → Partition → Nat → esp_err_t × Nat
  esp_ota_write : List Event → Nat → List Nat → Nat → esp_err_t
  esp_ota_end : List Event → Nat → esp_err_t
  esp_ota_set_boot_partition : List Event → Option Partition → esp_err_t
  esp_partition_read : List Event → Option Partition → Nat → Nat → Option (List Nat)
  operator_new : List Event → Nat → Bool

/-! ## The updater object -/

/-- The data members of `class FirmwareUpdater`, with their initial values. -/
structure FirmwareUpdater where
  _updateHandle : Nat := 0
  _updatePartition : Option Partition := none
  _firmwareSize : Nat := 0
  _signatureVerifier : Option SignatureVerifier := none
  _hashAlgorithm : Option HashAlgorithm := none
  _magicBytes : Option (List Nat) := none
  _magicBytesLength : Nat := 0

/-- What a member function sees: the static flag `__updateIsRunning`, the object `this`
and the history of platform calls. -/
structure State where
  __updateIsRunning : Bool := false
  self : FirmwareUpdater := {}
  trace : List Event := []

/-- Append one platform call to the history. -/
def State.log (s : State) (e : Event) : State := { s with trace := s.trace ++ [e] }

/-- The calls made between state `s` and the later state `t`. -/
def eventsSince (s t : State) : List Event := t.trace.drop s.trace.length

/-- `FirmwareUpdater::magicBytesUsed`. -/
def magicBytesUsed (u : FirmwareUpdater) : Bool := decide (u._magicBytesLength > 0)

/-- `FirmwareUpdater::signatureUsed`. -/
def signatureUsed (u : FirmwareUpdater) : Bool := u._signatureVerifier.isSome

/-- `FirmwareUpdater::isUpdateRunning`. -/
def isUpdateRunning (s : State) : Bool := s.__updateIsRunning

/-- `FirmwareUpdater::getUpdatePartition`. -/
def getUpdatePartition (s : State) : Option Partition := s.self._updatePartition

/-- `FirmwareUpdater::lockUpdate`. -/
def lockUpdate (s : State) : Bool × State :=
  if s.__updateIsRunning then
    (false, s)
  else
    (true, { s with __updateIsRunning := true, self := { s.self with _firmwareSize := 0 } })

/-- `FirmwareUpdater::unlockUpdate`. -/
def unlockUpdate (s : State) : State :=
  { s with
    __updateIsRunning := false
    self := { s.self with _updatePartition := none, _updateHandle := 0 } }

/-- `FirmwareUpdater::beginUpdate`.  The handle is the value `esp_ota_begin` leaves in
`_updateHandle`; on the failing path `unlockUpdate` overwrites it with zero. -/
def beginUpdate (env : Env) (s : State) (imageSize : Nat) (updatePartition : Option Partition) :
    Bool × State :=
  match lockUpdate s with
  | (false, s) => (false, s)
  | (true, s) =>
    let resolved : Option Partition × State :=
      match updatePartition with
      | some p => (some p, s)
      | none =>
        let r := env.esp_ota_get_next_update_partition s.trace
        (r, s.log (Event.ota_get_next_update_partition r))
    match resolved with
    | (none, s) => (false, unlockUpdate s)
    | (some p, s) =>
      let s := { s with self := { s.self with _updatePartition := some p } }
      let r := env.esp_ota_begin s.trace p imageSize
      let s := { s with self := { s.self with _updateHandle := r.2 } }
      let s := s.log (Event.ota_begin p imageSize r.1 r.2)
      if r.1 ≠ ESP_OK then
        (false, unlockUpdate s)
      else
        (true, s)

/-- `FirmwareUpdater::writeFirmwareBytes`; `_firmwareSize` is a `uint32_t`. -/
def writeFirmwareBytes (env : Env) (s : State) (data : List Nat) (size : Nat) :
    esp_err_t × State :=
  if isUpdateRunning s && s.self._updateHandle != 0 then
    let result := env.esp_ota_write s.trace s.self._updateHandle data size
    let s := s.log (Event.ota_write s.self._updateHandle data size result)
    if result = ESP_OK then
      (result, { s with self := { s.self with _firmwareSize := wadd s.self._firmwareSize size } })
    else
      (result, s)
  else
    (ESP_FAIL, s)

/-- `memcmp(a, b, n) == 0` on two buffers. -/
def memcmpEq (a b : List Nat) (n : Nat) : Bool := decide (a.take n = b.take n)

/-- `FirmwareUpdater::checkMagicBytes`. -/
def checkMagicBytes (env : Env) (s : State) (magicBytesOffset : Nat) : Option (Bool × State) :=
  if s.self._magicBytesLength = 0 then
    some (false, s)
  else
    let r := env.esp_partition_read s.trace s.self._updatePartition magicBytesOffset
      s.self._magicBytesLength
    let s := s.log (Event.partition_read s.self._updatePartition magicBytesOffset
      s.self._magicBytesLength r)
    match r with
    | some magicBytesRead =>
      match s.self._magicBytes with
      | none => none
      | some magicBytes => some (memcmpEq magicBytes magicBytesRead s.self._magicBytesLength, s)
    | none => some (false, s)

/-- The `while (remaningBytesToHash > 0)` loop of `checkFirmwareSignature`, with a bound
`fuel` on the number of iterations.  `hashed` is the data the hasher has received since
`begin()`.  The result is `false` when a read failed (the source then calls `end()` and
returns). -/
def hashLoopFuel (env : Env) : Nat → State → Nat → Nat → List Nat → Bool × State × List Nat
  | 0, s, _, _, hashed => (true, s, hashed)
  | fuel + 1, s, remaningBytesToHash, numberOfBytesHashed, hashed =>
    if remaningBytesToHash > 0 then
      let r := env.esp_partition_read s.trace s.self._updatePartition numberOfBytesHashed
        HASH_READ_BUFFER_SIZE
      let s := s.log (Event.partition_read s.self._updatePartition numberOfBytesHashed
        HASH_READ_BUFFER_SIZE r)
      match r with
      | none => (false, s.log Event.hash_end, hashed)
      | some readBuffer =>
        if remaningBytesToHash > HASH_READ_BUFFER_SIZE then
          let chunk := readBuffer.take HASH_READ_BUFFER_SIZE
          hashLoopFuel env fuel (s.log (Event.hash_addData chunk))
            (remaningBytesToHash - HASH_READ_BUFFER_SIZE)
            (wadd numberOfBytesHashed HASH_READ_BUFFER_SIZE) (hashed ++ chunk)
        else
          let chunk := readBuffer.take remaningBytesToHash
          hashLoopFuel env fuel (s.log (Event.hash_addData chunk)) 0
            (wadd numberOfBytesHashed remaningBytesToHash) (hashed ++ chunk)
    else
      (true, s, hashed)

/-- The hash loop of `checkFirmwareSignature`.  Every iteration takes at least one byte off
`remaningBytesToHash`, so `remaningBytesToHash` iterations are enough for the loop to leave
through its condition (`hashLoop_zero`, `hashLoop_fail`, `hashLoop_big` and `hashLoop_last`
below are the equations of the `while` loop). -/
def hashLoop (env : Env) (s : State) (remaningBytesToHash numberOfBytesHashed : Nat)
    (hashed : List Nat) : Bool × State × List Nat :=
  hashLoopFuel env remaningBytesToHash s remaningBytesToHash numberOfBytesHashed hashed

/-- `FirmwareUpdater::checkFirmwareSignature`.  After `end()` the source allocates the
signature buffer, `new unsigned char[signatureLength]` (FirmwareUpdater.cpp, line 357): when
the heap refuses it the function does not return. -/
def checkFirmwareSignature (env : Env) (s : State) (signatureLength : Nat) :
    Option (Bool × State) :=
  if signatureLength = 0 then
    some (false, s)
  else
    match s.self._hashAlgorithm with
    | none => none
    | some hashAlgorithm =>
      let remaningBytesToHash := wsub (wsub s.self._firmwareSize signatureLength) SIZEOF_UINT32
      let s := s.log Event.hash_begin
      match hashLoop env s remaningBytesToHash 0 [] with
      | (false, s, _) => some (false, s)
      | (true, s, hashed) =>
        let s := s.log Event.hash_end
        if env.operator_new s.trace signatureLength then
          let signatureOffset := wsub (wsub s.self._firmwareSize signatureLength) SIZEOF_UINT32
          let r := env.esp_partition_read s.trace s.self._updatePartition signatureOffset
            signatureLength
          let s := s.log (Event.partition_read s.self._updatePartition signatureOffset
            signatureLength r)
          match r with
          | some signature =>
            match s.self._signatureVerifier with
            | none => none
            | some signatureVerifier =>
              let v := signatureVerifier.verify (hashAlgorithm.getHash hashed)
                hashAlgorithm.hashLength signature signatureLength
              let s := s.log (Event.verify (hashAlgorithm.getHash hashed)
                hashAlgorithm.hashLength signature signatureLength v)
              some (decide (v = 0), s)
          | none => some (false, s)
        else
          none

/-- `FirmwareUpdater::checkFirmware`. -/
def checkFirmware (env : Env) (s : State) : Option (Bool × State) :=
  let lengthOffset := wsub s.self._firmwareSize SIZEOF_UINT32
  let r := env.esp_partition_read s.trace s.self._updatePartition lengthOffset SIZEOF_UINT32
  let s := s.log (Event.partition_read s.self._updatePartition lengthOffset SIZEOF_UINT32 r)
  match r with
  | none => some (false, s)
  | some buf =>
    let signatureLength := le32 buf
    let appendixSize := wadd (wadd signatureLength s.self._magicBytesLength) SIZEOF_UINT32
    if appendixSize > s.self._firmwareSize then
      some (false, s)
    else
      let magic : Option (Bool × State) :=
        if magicBytesUsed s.self then
          checkMagicBytes env s (s.self._firmwareSize - appendixSize)
        else
          some (true, s)
      match magic with
      | none => none
      | some (false, s) => some (false, s)
      | some (true, s) =>
        if signatureUsed s.self then
          checkFirmwareSignature env s signatureLength
        else
          some (true, s)

/-- `FirmwareUpdater::finishUpdate`. -/
def finishUpdate (env : Env) (s : State) : Option (Bool × State) :=
  if isUpdateRunning s && s.self._updateHandle != 0 then
    let result := env.esp_ota_end s.trace s.self._updateHandle
    let s := s.log (Event.ota_end s.self._updateHandle result)
    if result ≠ ESP_OK then
      some (false, unlockUpdate s)
    else
      match checkFirmware env s with
      | none => none
      | some (false, s) => some (false, unlockUpdate s)
      | some (true, s) =>
        let result := env.esp_ota_set_boot_partition s.trace s.self._updatePartition
        let s := s.log (Event.ota_set_boot_partition s.self._updatePartition result)
        if result ≠ ESP_OK then
          some (false, unlockUpdate s)
        else
          some (true, unlockUpdate s)
  else
    some (false, s)

/-- `FirmwareUpdater::abortUpdate`. -/
def abortUpdate (env : Env) (s : State) : Bool × State :=
  if isUpdateRunning s && s.self._updateHandle != 0 then
    let result := env.esp_ota_end s.trace s.self._updateHandle
    let s := s.log (Event.ota_end s.self._updateHandle result)
    (true, unlockUpdate s)
  else
    (false, s)

/-- `FirmwareUpdater::activateNextUpdatePartition` (static: it touches only the flag). -/
def activateNextUpdatePartition (env : Env) (s : State) : Bool × State :=
  if s.__updateIsRunning then
    (false, s)
  else
    let s := { s with __updateIsRunning := true }
    let updatePartition := env.esp_ota_get_next_update_partition s.trace
    let s := s.log (Event.ota_get_next_update_partition updatePartition)
    match updatePartition with
    | some p =>
      let result := env.esp_ota_set_boot_partition s.trace (some p)
      let s := s.log (Event.ota_set_boot_partition (some p) result)
      if result = ESP_OK then
        (true, { s with __updateIsRunning := false })
      else
        (false, { s with __updateIsRunning := false })
    | none => (false, { s with __updateIsRunning := false })

/-- `FirmwareUpdater::setMagicBytes`: the first `length` bytes of the caller's buffer are
copied into a fresh buffer. -/
def setMagicBytes (s : State) (magicBytes : List Nat) (length : Nat) : Bool × State :=
  (true, { s with self := { s.self with
    _magicBytes := some (magicBytes.take length), _magicBytesLength := length } })

/-- `FirmwareUpdater::installSignatureVerifier`. -/
def installSignatureVerifier (s : State) (verifier : Option SignatureVerifier)
    (hashAlgo : Option HashAlgorithm) : Bool × State :=
  if verifier.isNone || hashAlgo.isNone then
    (false, s)
  else
    (true, { s with self := { s.self with
      _signatureVerifier := verifier, _hashAlgorithm := hashAlgo } })

/-! ## Several updater objects sharing the static flag -/

/-- The whole program: the static flag, the updater objects (indexed by a number) and the
history of platform calls.  Initially no object has been touched. -/
structure System where
  __updateIsRunning : Bool := false
  instances : Nat → FirmwareUpdater := fun _ => {}
  trace : List Event := []

/-- The state seen by a member function called on object `i`. -/
def System.view (sys : System) (i : Nat) : State :=
  { __updateIsRunning := sys.__updateIsRunning, self := sys.instances i, trace := sys.trace }

/-- Store the state left by a member function called on object `i`. -/
def System.put (sys : System) (i : Nat) (s : State) : System :=
  { __updateIsRunning := s.__updateIsRunning
    instances := Function.update sys.instances i s.self
    trace := s.trace }

/-- A call of a public operation on object `i` (the static operation names no object). -/
inductive Call where
  | beginUpdate (i : Nat) (imageSize : Nat) (updatePartition : Option Partition)
  | writeFirmwareBytes (i : Nat) (data : List Nat) (size : Nat)
  | finishUpdate (i : Nat)
  | abortUpdate (i : Nat)
  | activateNextUpdatePartition
  | setMagicBytes (i : Nat) (magicBytes : List Nat) (length : Nat)
  | installSignatureVerifier (i : Nat) (verifier : Option SignatureVerifier)
      (hashAlgo : Option HashAlgorithm)

/-- Execute one call to completion; `none` when the call does not return: it dereferences
`nullptr`, or `operator new` refuses the signature buffer. -/
def step (env : Env) (sys : System) : Call → Option System
  | Call.beginUpdate i imageSize updatePartition =>
    some (sys.put i (beginUpdate env (sys.view i) imageSize updatePartition).2)
  | Call.writeFirmwareBytes i data size =>
    some (sys.put i (writeFirmwareBytes env (sys.view i) data size).2)
  | Call.finishUpdate i =>
    (finishUpdate env (sys.view i)).map (fun r => sys.put i r.2)
  | Call.abortUpdate i =>
    some (sys.put i (abortUpdate env (sys.view i)).2)
  | Call.activateNextUpdatePartition =>
    let s := (activateNextUpdatePartition env
      { __updateIsRunning := sys.__updateIsRunning, self := {}, trace := sys.trace }).2
    some { sys with __updateIsRunning := s.__updateIsRunning, trace := s.trace }
  | Call.setMagicBytes i magicBytes length =>
    some (sys.put i (setMagicBytes (sys.view i) magicBytes length).2)
  | Call.installSignatureVerifier i verifier hashAlgo =>
    some (sys.put i (installSignatureVerifier (sys.view i) verifier hashAlgo).2)

/-- Execute a sequence of calls, one call at a time. -/
def run (env : Env) (sys : System) : List Call → Option System
  | [] => some sys
  | c :: cs => (step env sys c).bind (fun sys => run env sys cs)

/-- The state after a sequence of `writeFirmwareBytes` calls (buffer and size of each). -/
def writeAll (env : Env) (s : State) (writes : List (List Nat × Nat)) : State :=
  writes.foldl (fun st w => (writeFirmwareBytes env st w.1 w.2).2) s

/-! ## Vocabulary of the statements -/

/-- Extend the history by a list of calls. -/
def State.extend (s : State) (evs : List Event) : State := { s with trace := s.trace ++ evs }

/-- The calls of the boot selector `esp_ota_set_boot_partition`. -/
def Event.isSetBoot : Event → Bool
  | Event.ota_set_boot_partition _ _ => true
  | _ => false

/-- The calls made by the firmware check: flash reads, hasher and verifier calls. -/
def Event.isVerification : Event → Bool
  | Event.partition_read _ _ _ _ => true
  | Event.hash_begin => true
  | Event.hash_addData _ => true
  | Event.hash_end => true
  | Event.verify _ _ _ _ _ => true
  | _ => false

/-- The calls made by the body of the hash loop: chunk reads and `addData`. -/
def Event.isLoopStep : Event → Bool
  | Event.partition_read _ _ _ _ => true
  | Event.hash_addData _ => true
  | _ => false

/-- The object owns the active transaction: the flag is set and its handle is non-zero. -/
def Owns (s : State) : Prop := s.__updateIsRunning = true ∧ s.self._updateHandle ≠ 0

/-- The lock is free and the object holds no transaction. -/
def Released (s : State) : Prop :=
  s.__updateIsRunning = false ∧ s.self._updateHandle = 0 ∧ s.self._updatePartition = none

/-- Every flash read among the calls `evs` lay inside the slot, whose contents are `flash`,
succeeded and delivered the bytes stored there. -/
def ReadsFrom (flash : List Nat) (evs : List Event) : Prop :=
  ∀ p off len r, Event.partition_read p off len r ∈ evs →
    off + len ≤ flash.length ∧ r = some (slice flash off len)

/-- Every flash read among the calls `evs` succeeded. -/
def ReadsSucceeded (evs : List Event) : Prop :=
  ∀ p off len r, Event.partition_read p off len r ∈ evs → r.isSome = true

/-- The data handed to `addData`, in order, concatenated. -/
def addedData : List Event → List Nat
  | [] => []
  | Event.hash_addData d :: evs => d ++ addedData evs
  | _ :: evs => addedData evs

/-- Every `addData` among the calls `evs` follows at once a successful chunk read that
starts inside the body (of `body` bytes), and hands to the hasher the bytes that read
delivered, up to the end of the chunk or the end of the body, whichever comes first. -/
def AddDataWithinBody (body : Nat) (evs : List Event) : Prop :=
  ∀ pre d post, evs = pre ++ Event.hash_addData d :: post →
    ∃ pre0 p off chunk,
      pre = pre0 ++ [Event.partition_read p off HASH_READ_BUFFER_SIZE (some chunk)] ∧
      off < body ∧ d = chunk.take (min HASH_READ_BUFFER_SIZE (body - off))

/-- The facts about the calls `mid` made by the hash loop that started at offset 0 with
`len` bytes to hash. -/
def LoopFacts (len : Nat) (ok : Bool) (mid : List Event) : Prop :=
  (∀ e ∈ mid, e.isVerification = true) ∧
  (ok = true ↔ ReadsSucceeded mid) ∧
  (ok = true → ∀ e ∈ mid, e.isLoopStep = true) ∧
  (∀ flash, len ≤ WORD → ReadsFrom flash mid → addedData mid = slice flash 0 len) ∧
  (len ≤ WORD → ∀ p off l r, Event.partition_read p off l r ∈ mid →
    l = HASH_READ_BUFFER_SIZE ∧ off < len ∧ off % HASH_READ_BUFFER_SIZE = 0) ∧
  (len ≤ WORD → AddDataWithinBody len mid)

/-- A platform on which every primitive succeeds: the next update partition is partition 7,
`esp_ota_begin` hands out handle 1, and a read inside the slot delivers the bytes of
`flash`, while a read that leaves the slot is rejected.  The heap grants an array of up to
64 KiB and refuses a larger one. -/
def flashEnv (flash : List Nat) : Env where
  esp_ota_get_next_update_partition := fun _ => some 7
  esp_ota_begin := fun _ _ _ => (ESP_OK, 1)
  esp_ota_write := fun _ _ _ _ => ESP_OK
  esp_ota_end := fun _ _ => ESP_OK
  esp_ota_set_boot_partition := fun _ _ => ESP_OK
  esp_partition_read := fun _ _ off len =>
    if off + len ≤ flash.length then some (slice flash off len) else none
  operator_new := fun _ size => decide (size ≤ 65536)

/-- An object that owns a transaction on partition 7 with `size` bytes written and nothing
configured. -/
def plainOwner (size : Nat) : State :=
  { __updateIsRunning := true
    self := { _updateHandle := 1, _updatePartition := some 7, _firmwareSize := size }
    trace := [] }

/-- An 8-byte image whose length field holds 0. -/
def image8 : List Nat := [1, 2, 3, 4, 0, 0, 0, 0]

/-- The slot `beginUpdate` works on (FirmwareUpdater.cpp, lines 55 to 66): the caller's
partition when one is given, and otherwise the answer of
`esp_ota_get_next_update_partition`. -/
def resolvedSlot (env : Env) (trace : List Event) (updatePartition : Option Partition) :
    Option Partition :=
  match updatePartition with
  | some p => some p
  | none => env.esp_ota_get_next_update_partition trace

/-- A platform that answers every call with the error code 5, lets every read fail and has
no heap left. -/
def failingEnv : Env where
  esp_ota_get_next_update_partition := fun _ => none
  esp_ota_begin := fun _ _ _ => (5, 0)
  esp_ota_write := fun _ _ _ _ => 5
  esp_ota_end := fun _ _ => 5
  esp_ota_set_boot_partition := fun _ _ => 5
  esp_partition_read := fun _ _ _ _ => none
  operator_new := fun _ _ => false

/-- A hasher whose digest is the data itself. -/
def identityHash : HashAlgorithm where
  getHash := fun data => data
  hashLength := 0

/-- A verifier that accepts exactly when the signature equals the digest. -/
def equalityVerifier : SignatureVerifier where
  verify := fun hash _ signature _ => if hash = signature then 0 else 1

/-- A 10-byte image: body `[9]`, magic `[7, 7]`, the signature `[9, 7, 7]` (body and
magic, which the identity hasher and the equality verifier accept) and the length field 3. -/
def image10 : List Nat := [9, 7, 7, 9, 7, 7, 3, 0, 0, 0]

/-- A slot of 256 bytes that holds `image10`, the rest erased (`0xFF`). -/
def slot256 : List Nat := image10 ++ List.replicate 246 255

/-- An object that owns a transaction on partition 7 with the 10 bytes of `image10`
written, the magic `[7, 7]` configured and the identity hasher and the equality verifier
installed. -/
def signedOwner : State :=
  { __updateIsRunning := true
    self := { _updateHandle := 1, _updatePartition := some 7, _firmwareSize := 10,
              _signatureVerifier := some equalityVerifier, _hashAlgorithm := some identityHash,
              _magicBytes := some [7, 7], _magicBytesLength := 2 }
    trace := [] }

/-- The calls `checkFirmware` makes on `signedOwner` over `slot256`. -/
def signedCheckEvents : List Event :=
  [Event.partition_read (some 7) 6 4 (some [3, 0, 0, 0]),
   Event.partition_read (some 7) 1 2 (some [7, 7]),
   Event.hash_begin,
   Event.partition_read (some 7) 0 256 (some slot256),
   Event.hash_addData [9, 7, 7],
   Event.hash_end,
   Event.partition_read (some 7) 3 3 (some [9, 7, 7]),
   Event.verify [9, 7, 7] 0 [9, 7, 7] 3 0]

/-- A plain image of 16 bytes, all `0x55`: no appendix. -/
def plainImage16 : List Nat := List.replicate 16 85

/-- A fresh object after `beginUpdate(16)` and one `writeFirmwareBytes` of the 16 bytes
of `plainImage16`, on the platform where every primitive succeeds. -/
def plainWritten : State :=
  (writeFirmwareBytes (flashEnv plainImage16)
    (beginUpdate (flashEnv plainImage16) {} 16 none).2 plainImage16 16).2

/-- A 4-byte image, all `0xFF`: its length field holds `2^32 − 1`. -/
def imageFF : List Nat := [255, 255, 255, 255]

/-- The object `plainOwner 10` with the magic `[7, 7]` configured. -/
def magicOwner : State :=
  { plainOwner 10 with
    self := { (plainOwner 10).self with _magicBytes := some [7, 7], _magicBytesLength := 2 } }

/-- A 10-byte image with an empty signature (length field 0) and the wrong bytes `[7, 8]`
where the magic `[7, 7]` should be. -/
def imageWrongMagic : List Nat := [1, 2, 3, 4, 7, 8, 0, 0, 0, 0]

/-- The object `signedOwner` as `checkFirmwareSignature` finds it: after the reads of the
length field and of the magic bytes. -/
def signedAtSignature : State :=
  signedOwner.extend [Event.partition_read (some 7) 6 4 (some [3, 0, 0, 0]),
    Event.partition_read (some 7) 1 2 (some [7, 7])]

/-- The calls `checkFirmwareSignature` makes on `signedAtSignature` over `slot256`. -/
def signedSignatureEvents : List Event :=
  [Event.hash_begin,
   Event.partition_read (some 7) 0 256 (some slot256),
   Event.hash_addData [9, 7, 7],
   Event.hash_end,
   Event.partition_read (some 7) 3 3 (some [9, 7, 7]),
   Event.verify [9, 7, 7] 0 [9, 7, 7] 3 0]

/-- A sequence of `writeFirmwareBytes` calls (buffer and size of each): the results of the
calls, in order, and the state they leave. -/
def writeSeq (env : Env) (s : State) : List (List Nat × Nat) → List esp_err_t × State
  | [] => ([], s)
  | w :: ws =>
    let r := writeFirmwareBytes env s w.1 w.2
    let rest := writeSeq env r.2 ws
    (r.1 :: rest.1, rest.2)

/-- An object that owns a transaction on partition 7 and whose byte counter holds the
largest 32-bit value. -/
def fullCounterOwner : State := plainOwner 4294967295

/-- The platform of `flashEnv` with a flash driver that rejects every write with the error
code 0x102. -/
def writeFailEnv : Env :=
  { flashEnv [] with esp_ota_write := fun _ _ _ _ => 258 }

/-- The platform of `flashEnv` on which `esp_ota_begin` fails with the error code 0x102. -/
def beginFailEnv : Env :=
  { flashEnv [] with esp_ota_begin := fun _ _ _ => (258, 9) }

/-- A fresh object while another object holds the update lock. -/
def lockedOut : State := { __updateIsRunning := true }

/-- A program with two objects: object 0 owns a transaction on partition 7 with 8 bytes
written, every other object is fresh. -/
def twoObjects : System :=
  { __updateIsRunning := true
    instances := fun i => if i = 0 then (plainOwner 8).self else {}
    trace := [] }

/-- The two kinds of flash read the firmware check issues on an image of `written` bytes
with a hashed body of `body` bytes: a read inside the written image, or a hash chunk read,
`HASH_READ_BUFFER_SIZE` bytes long, that starts inside the body at a multiple of the
chunk size. -/
def ReadInImageOrChunk (written body off len : Nat) : Prop :=
  off + len ≤ written ∨
    (len = HASH_READ_BUFFER_SIZE ∧ off % HASH_READ_BUFFER_SIZE = 0 ∧ off < body)

/-- A session on one object: the equality verifier and the identity hasher are installed,
a transaction is begun, the 4 bytes `FF FF FF FF` are written and `finishUpdate` is
called. -/
def refusedSession : List Call :=
  [Call.installSignatureVerifier 0 (some equalityVerifier) (some identityHash),
   Call.beginUpdate 0 4 none,
   Call.writeFirmwareBytes 0 [255, 255, 255, 255] 4,
   Call.finishUpdate 0]

/-- An erased slot of 256 bytes (every byte `0xFF`); its first 4 bytes are also the image
`FF FF FF FF`, whose length field holds `2^32 − 1`. -/
def erasedSlot : List Nat := List.replicate 256 255

/-- An object that owns a transaction on partition 7 with 4 bytes written and the identity
hasher and the equality verifier installed. -/
def signedOwner4 : State :=
  { __updateIsRunning := true
    self := { _updateHandle := 1, _updatePartition := some 7, _firmwareSize := 4,
              _signatureVerifier := some equalityVerifier, _hashAlgorithm := some identityHash }
    trace := [] }

/-! ## The HTTP downloader (src/HTTPFirmwareDownloader.cpp) -/

/-- The constant `HTTP_RECEIVE_BUFFER_SIZE` of HTTPFirmwareDownloader.cpp. -/
def HTTP_RECEIVE_BUFFER_SIZE : Nat := 1024

/-- The largest value of the C type `int` on the target. -/
def INT_MAX : Int := 2147483647

/-- The answers of the ESP-IDF HTTP client during one download: the result of
`esp_http_client_open`, the content length `esp_http_client_fetch_headers` reports, and the
results of the successive calls of `esp_http_client_read`, in order: `none` for a negative
result, and otherwise the bytes the call stored in the receive buffer (their number is the
result of the call). -/
structure HttpResponse where
  openResult : esp_err_t
  contentLength : Int
  reads : List (Option (List Nat))

/-- The body of a response: the bytes its reads deliver, in order. -/
def responseBody (http : HttpResponse) : List Nat :=
  (http.reads.filterMap id).flatten

/-- An `IFirmwareWriter`: its `writeFirmwareBytes(data, size)`, acting on the state of the
writer. -/
abbrev FirmwareWriter := State → List Nat → Nat → esp_err_t × State

/-- The `do … while (totalReadBytes < contentLength)` loop of `downloadFirmware`.  The
result is the flag `downloadSuccessful`, the state of the writer and the calls of
`writeFirmwareBytes` with their results.  There is no result when the loop asks for more
reads than the response holds, or when the `int` sum `totalReadBytes + currentReadBytes`
overflows. -/
def downloadLoop (writer : FirmwareWriter) (contentLength : Int) :
    List (Option (List Nat)) → State → Int → List (List Nat × esp_err_t) →
      Option (Bool × State × List (List Nat × esp_err_t))
  | [], _, _, _ => none
  | none :: _, st, _, writes => some (false, st, writes)
  | some readBuffer :: rest, st, totalReadBytes, writes =>
    let currentReadBytes : Int := readBuffer.length
    if totalReadBytes + currentReadBytes > INT_MAX then
      none
    else
      let totalReadBytes := totalReadBytes + currentReadBytes
      let errorCode := writer st readBuffer readBuffer.length
      let writes := writes ++ [(readBuffer, errorCode.1)]
      if errorCode.1 ≠ ESP_OK then
        some (false, errorCode.2, writes)
      else if totalReadBytes < contentLength then
        downloadLoop writer contentLength rest errorCode.2 totalReadBytes writes
      else
        some (true, errorCode.2, writes)

/-- `HTTPFirmwareDownloader::downloadFirmware`: the value it returns, the state of the
writer and the calls of `writeFirmwareBytes` it made. -/
def downloadFirmware (http : HttpResponse) (_firmwareWriter : Option FirmwareWriter)
    (st : State) : Option (Int × State × List (List Nat × esp_err_t)) :=
  match _firmwareWriter with
  | none => some (-1, st, [])
  | some writer =>
    if http.openResult ≠ ESP_OK then
      some (-1, st, [])
    else
      match downloadLoop writer http.contentLength http.reads st 0 [] with
      | none => none
      | some (downloadSuccessful, st, writes) =>
        if downloadSuccessful = false then some (-1, st, writes) else some (0, st, writes)

/-- A response without a content length (the headers report −1) whose body of four bytes
arrives in two reads, followed by the end of the stream. -/
def chunkedResponse : HttpResponse :=
  { openResult := ESP_OK, contentLength := -1, reads := [some [1, 2], some [3, 4], some []] }

/-! ## Frame lemmas: what the operations leave alone -/

/-- With the lock held, `lockUpdate` fails and `beginUpdate` returns at once. -/
theorem beginUpdate_held (env : Env) (s : State) (imageSize : Nat) (slot : Option Partition)
    (hheld : s.__updateIsRunning = true) :
    beginUpdate env s imageSize slot = (false, s) := by
  simp [beginUpdate, lockUpdate, hheld]

@[simp] theorem State.log_eq_extend (s : State) (e : Event) : s.log e = s.extend [e] := rfl

@[simp] theorem State.extend_extend (s : State) (a b : List Event) :
    (s.extend a).extend b = s.extend (a ++ b) := by
  simp [State.extend, List.append_assoc]

@[simp] theorem State.extend_self (s : State) (a : List Event) : (s.extend a).self = s.self := rfl

@[simp] theorem State.extend_flag (s : State) (a : List Event) :
    (s.extend a).__updateIsRunning = s.__updateIsRunning := rfl

@[simp] theorem State.extend_trace (s : State) (a : List Event) :
    (s.extend a).trace = s.trace ++ a := rfl

@[simp] theorem State.extend_nil (s : State) : s.extend [] = s := by
  simp [State.extend]

@[simp] theorem eventsSince_extend (s : State) (a : List Event) :
    eventsSince s (s.extend a) = a := by
  simp [eventsSince, State.extend]

@[simp] theorem eventsSince_unlock_extend (s : State) (a : List Event) :
    eventsSince s (unlockUpdate (s.extend a)) = a := by
  simp [eventsSince, State.extend, unlockUpdate]

/-! ## Lists of calls -/

theorem readsSucceeded_nil : ReadsSucceeded [] := by
  simp [ReadsSucceeded]

theorem readsSucceeded_append (a b : List Event) :
    ReadsSucceeded (a ++ b) ↔ ReadsSucceeded a ∧ ReadsSucceeded b := by
  simp only [ReadsSucceeded, List.mem_append]
  constructor
  · intro h
    exact ⟨fun p o l r hm => h p o l r (Or.inl hm), fun p o l r hm => h p o l r (Or.inr hm)⟩
  · rintro ⟨h1, h2⟩ p o l r (hm | hm)
    · exact h1 p o l r hm
    · exact h2 p o l r hm

theorem readsSucceeded_read (p : Option Partition) (o l : Nat) (r : Option (List Nat)) :
    ReadsSucceeded [Event.partition_read p o l r] ↔ r.isSome = true := by
  simp only [ReadsSucceeded, List.mem_singleton, Event.partition_read.injEq]
  constructor
  · intro h
    exact h p o l r ⟨rfl, rfl, rfl, rfl⟩
  · rintro h p2 o2 l2 r2 ⟨-, -, -, rfl⟩
    exact h

theorem readsSucceeded_other (e : Event) (h : ∀ p o l r, e ≠ Event.partition_read p o l r) :
    ReadsSucceeded [e] := by
  intro p o l r hm
  simp only [List.mem_singleton] at hm
  exact absurd hm.symm (h p o l r)

theorem readsFrom_append (flash : List Nat) (a b : List Event) :
    ReadsFrom flash (a ++ b) ↔ ReadsFrom flash a ∧ ReadsFrom flash b := by
  simp only [ReadsFrom, List.mem_append]
  constructor
  · intro h
    exact ⟨fun p o l r hm => h p o l r (Or.inl hm), fun p o l r hm => h p o l r (Or.inr hm)⟩
  · rintro ⟨h1, h2⟩ p o l r (hm | hm)
    · exact h1 p o l r hm
    · exact h2 p o l r hm

theorem readsFrom_read (flash : List Nat) (p : Option Partition) (o l : Nat)
    (r : Option (List Nat)) :
    ReadsFrom flash [Event.partition_read p o l r] ↔
      o + l ≤ flash.length ∧ r = some (slice flash o l) := by
  simp only [ReadsFrom, List.mem_singleton, Event.partition_read.injEq]
  constructor
  · intro h
    exact h p o l r ⟨rfl, rfl, rfl, rfl⟩
  · rintro h p2 o2 l2 r2 ⟨-, rfl, rfl, rfl⟩
    exact h

theorem readsFrom_succeeded (flash : List Nat) (evs : List Event) (h : ReadsFrom flash evs) :
    ReadsSucceeded evs := by
  intro p o l r hm
  rw [(h p o l r hm).2]
  rfl

theorem addedData_append (a b : List Event) : addedData (a ++ b) = addedData a ++ addedData b := by
  induction a with
  | nil => rfl
  | cons e a ih =>
    cases e <;> simp [addedData, ih]

theorem slice_length (flash : List Nat) (off len : Nat) (h : off + len ≤ flash.length) :
    (slice flash off len).length = len := by
  simp only [slice, List.length_take, List.length_drop]
  omega

theorem slice_take (flash : List Nat) (off len k : Nat) (h : k ≤ len) :
    (slice flash off len).take k = slice flash off k := by
  simp only [slice, List.take_take]
  rw [Nat.min_eq_left h]

theorem slice_append (flash : List Nat) (off a b : Nat) :
    slice flash off a ++ slice flash (off + a) b = slice flash off (a + b) := by
  simp only [slice]
  rw [List.take_add, List.drop_drop]

theorem slice_zero (flash : List Nat) (off : Nat) : slice flash off 0 = [] := by
  simp [slice]

theorem slice_from_zero (flash : List Nat) (len : Nat) : slice flash 0 len = flash.take len := by
  simp [slice]

/-! ## The hash loop -/

/-- More fuel than bytes to hash changes nothing. -/
theorem hashLoopFuel_irrelevant (env : Env) (fuel : Nat) :
    ∀ (fuel2 : Nat) (s : State) (rem n : Nat) (acc : List Nat), rem ≤ fuel → rem ≤ fuel2 →
      hashLoopFuel env fuel s rem n acc = hashLoopFuel env fuel2 s rem n acc := by
  induction fuel with
  | zero =>
    intro fuel2 s rem n acc h1 _
    have hz : rem = 0 := Nat.le_zero.mp h1
    subst hz
    cases fuel2 with
    | zero => rfl
    | succ k => simp [hashLoopFuel]
  | succ fuel ih =>
    intro fuel2 s rem n acc h1 h2
    rcases Nat.eq_zero_or_pos rem with hz | hpos
    · subst hz
      cases fuel2 with
      | zero => simp [hashLoopFuel]
      | succ k => simp [hashLoopFuel]
    · cases fuel2 with
      | zero => omega
      | succ k =>
        simp only [hashLoopFuel, hpos, gt_iff_lt, if_true]
        cases env.esp_partition_read s.trace s.self._updatePartition n HASH_READ_BUFFER_SIZE with
        | none => rfl
        | some buf =>
          simp only []
          by_cases hbig : HASH_READ_BUFFER_SIZE < rem
          · simp only [hbig, if_true]
            apply ih
            · simp only [HASH_READ_BUFFER_SIZE] at *
              omega
            · simp only [HASH_READ_BUFFER_SIZE] at *
              omega
          · simp only [hbig, if_false]
            exact ih _ _ _ _ _ (Nat.zero_le _) (Nat.zero_le _)

theorem hashLoop_zero (env : Env) (s : State) (n : Nat) (acc : List Nat) :
    hashLoop env s 0 n acc = (true, s, acc) := rfl

theorem hashLoop_fail (env : Env) (s : State) (rem n : Nat) (acc : List Nat) (hpos : 0 < rem)
    (hr : env.esp_partition_read s.trace s.self._updatePartition n HASH_READ_BUFFER_SIZE = none) :
    hashLoop env s rem n acc =
      (false, s.extend [Event.partition_read s.self._updatePartition n HASH_READ_BUFFER_SIZE none,
        Event.hash_end], acc) := by
  cases rem with
  | zero => omega
  | succ k =>
    unfold hashLoop
    rw [hashLoopFuel, if_pos hpos]
    simp only [hr, State.log_eq_extend, State.extend_extend, List.singleton_append]

theorem hashLoop_big (env : Env) (s : State) (rem n : Nat) (acc buf : List Nat)
    (hbig : HASH_READ_BUFFER_SIZE < rem)
    (hr : env.esp_partition_read s.trace s.self._updatePartition n HASH_READ_BUFFER_SIZE
      = some buf) :
    hashLoop env s rem n acc =
      hashLoop env
        (s.extend [Event.partition_read s.self._updatePartition n HASH_READ_BUFFER_SIZE (some buf),
          Event.hash_addData (buf.take HASH_READ_BUFFER_SIZE)])
        (rem - HASH_READ_BUFFER_SIZE) (wadd n HASH_READ_BUFFER_SIZE)
        (acc ++ buf.take HASH_READ_BUFFER_SIZE) := by
  cases rem with
  | zero => exact absurd hbig (Nat.not_lt_zero _)
  | succ k =>
    unfold hashLoop
    rw [hashLoopFuel, if_pos (Nat.succ_pos k)]
    simp only [hr, State.log_eq_extend, State.extend_extend, List.singleton_append]
    rw [if_pos hbig]
    apply hashLoopFuel_irrelevant
    · simp only [HASH_READ_BUFFER_SIZE] at *
      omega
    · exact Nat.le_refl _

theorem hashLoop_last (env : Env) (s : State) (rem n : Nat) (acc buf : List Nat)
    (hpos : 0 < rem) (hsmall : rem ≤ HASH_READ_BUFFER_SIZE)
    (hr : env.esp_partition_read s.trace s.self._updatePartition n HASH_READ_BUFFER_SIZE
      = some buf) :
    hashLoop env s rem n acc =
      (true,
        s.extend [Event.partition_read s.self._updatePartition n HASH_READ_BUFFER_SIZE (some buf),
          Event.hash_addData (buf.take rem)],
        acc ++ buf.take rem) := by
  cases rem with
  | zero => omega
  | succ k =>
    unfold hashLoop
    rw [hashLoopFuel, if_pos hpos]
    simp only [hr, State.log_eq_extend, State.extend_extend, List.singleton_append]
    rw [if_neg (Nat.not_lt.mpr hsmall),
      hashLoopFuel_irrelevant env k 0 _ 0 _ _ (Nat.zero_le _) (Nat.le_refl _)]
    rfl

theorem wadd_eq (a b : Nat) (h : a + b < WORD) : wadd a b = a + b := by
  simp only [wadd]
  exact Nat.mod_eq_of_lt h

/-- The loop, in full: the calls it makes, its verdict and the data it hands to the hasher. -/
theorem hashLoop_spec (env : Env) (rem : Nat) :
    ∀ (s : State) (n : Nat) (acc : List Nat), ∃ ok evs,
      hashLoop env s rem n acc = (ok, s.extend evs, acc ++ addedData evs) ∧
      (∀ e ∈ evs, e.isVerification = true) ∧
      (ok = true ↔ ReadsSucceeded evs) ∧
      (ok = true → ∀ e ∈ evs, e.isLoopStep = true) ∧
      (∀ flash, n + rem ≤ WORD → ReadsFrom flash evs → addedData evs = slice flash n rem) ∧
      (n + rem ≤ WORD → ∀ p off l r, Event.partition_read p off l r ∈ evs →
        l = HASH_READ_BUFFER_SIZE ∧ n ≤ off ∧ off < n + rem ∧
          (off - n) % HASH_READ_BUFFER_SIZE = 0) := by
  induction rem using Nat.strong_induction_on with
  | _ rem ih =>
    intro s n acc
    rcases Nat.eq_zero_or_pos rem with hz | hpos
    · subst hz
      refine ⟨true, [], ?_, by simp, by simp [readsSucceeded_nil], by simp, ?_, ?_⟩
      · simp [hashLoop_zero, addedData]
      · intro flash _ _
        simp [addedData, slice_zero]
      · intro _ p off l r hm
        cases hm
    · cases hr : env.esp_partition_read s.trace s.self._updatePartition n HASH_READ_BUFFER_SIZE with
      | none =>
        refine ⟨false, [Event.partition_read s.self._updatePartition n HASH_READ_BUFFER_SIZE
          none, Event.hash_end], ?_, ?_, ?_, by simp, ?_, ?_⟩
        · rw [hashLoop_fail env s rem n acc hpos hr]
          simp [addedData]
        · intro e he
          simp only [List.mem_cons, List.mem_singleton, List.not_mem_nil, or_false] at he
          rcases he with rfl | rfl <;> rfl
        · constructor
          · intro h
            simp at h
          · intro h
            have := h _ _ _ _ (List.mem_cons_self _ _)
            simp at this
        · intro flash _ h
          have := (h _ _ _ _ (List.mem_cons_self _ _)).2
          simp at this
        · intro _ p off l r hm
          simp only [List.mem_cons, List.mem_singleton, List.not_mem_nil, or_false] at hm
          rcases hm with hm | hm
          · cases hm
            refine ⟨rfl, Nat.le_refl _, by omega, ?_⟩
            simp
          · cases hm
      | some buf =>
        by_cases hbig : HASH_READ_BUFFER_SIZE < rem
        · have hlt : rem - HASH_READ_BUFFER_SIZE < rem := by
            simp only [HASH_READ_BUFFER_SIZE] at *
            omega
          obtain ⟨ok, evs, h1, h2, h3, h4, h5, h6⟩ := ih _ hlt
            (s.extend [Event.partition_read s.self._updatePartition n HASH_READ_BUFFER_SIZE
              (some buf), Event.hash_addData (buf.take HASH_READ_BUFFER_SIZE)])
            (wadd n HASH_READ_BUFFER_SIZE) (acc ++ buf.take HASH_READ_BUFFER_SIZE)
          refine ⟨ok, [Event.partition_read s.self._updatePartition n HASH_READ_BUFFER_SIZE
              (some buf), Event.hash_addData (buf.take HASH_READ_BUFFER_SIZE)] ++ evs,
            ?_, ?_, ?_, ?_, ?_, ?_⟩
          · rw [hashLoop_big env s rem n acc buf hbig hr, h1]
            simp [addedData, addedData_append]
          · intro e he
            simp only [List.mem_append, List.mem_cons, List.mem_singleton, List.not_mem_nil,
              or_false] at he
            rcases he with (rfl | rfl) | he
            · rfl
            · rfl
            · exact h2 e he
          · rw [h3, readsSucceeded_append]
            constructor
            · intro h
              refine ⟨?_, h⟩
              intro p o l r hm
              simp only [List.mem_cons, List.mem_singleton, List.not_mem_nil, or_false] at hm
              rcases hm with hm | hm
              · cases hm
                rfl
              · cases hm
            · exact fun h => h.2
          · intro hok e he
            simp only [List.mem_append, List.mem_cons, List.mem_singleton, List.not_mem_nil,
              or_false] at he
            rcases he with (rfl | rfl) | he
            · rfl
            · rfl
            · exact h4 hok e he
          · intro flash hn hrf
            rw [readsFrom_append] at hrf
            obtain ⟨hin, hbuf⟩ := hrf.1 _ _ _ _ (List.mem_cons_self _ _)
            simp only [Option.some.injEq] at hbuf
            have hw : wadd n HASH_READ_BUFFER_SIZE = n + HASH_READ_BUFFER_SIZE := by
              apply wadd_eq
              simp only [HASH_READ_BUFFER_SIZE, WORD] at *
              omega
            have h5' := h5 flash (by
              rw [hw]
              simp only [HASH_READ_BUFFER_SIZE, WORD] at *
              omega) hrf.2
            rw [addedData_append, h5', hw, hbuf, slice_take _ _ _ _ (Nat.le_refl _)]
            simp only [addedData, List.append_nil]
            rw [slice_append]
            have hsum : HASH_READ_BUFFER_SIZE + (rem - HASH_READ_BUFFER_SIZE) = rem := by
              simp only [HASH_READ_BUFFER_SIZE] at *
              omega
            rw [hsum]
          · intro hn p off l r hm
            have hw : wadd n HASH_READ_BUFFER_SIZE = n + HASH_READ_BUFFER_SIZE := by
              apply wadd_eq
              simp only [HASH_READ_BUFFER_SIZE, WORD] at *
              omega
            simp only [List.mem_append, List.mem_cons, List.mem_singleton, List.not_mem_nil,
              or_false] at hm
            rcases hm with (hm | hm) | hm
            · cases hm
              refine ⟨rfl, Nat.le_refl _, by omega, ?_⟩
              simp
            · cases hm
            · have h6' := h6 (by
                rw [hw]
                simp only [HASH_READ_BUFFER_SIZE, WORD] at *
                omega) p off l r hm
              rw [hw] at h6'
              obtain ⟨hl, hlo, hhi, hmod⟩ := h6'
              refine ⟨hl, ?_, ?_, ?_⟩
              · omega
              · simp only [HASH_READ_BUFFER_SIZE] at *
                omega
              · simp only [HASH_READ_BUFFER_SIZE] at *
                omega
        · have hsmall : rem ≤ HASH_READ_BUFFER_SIZE := Nat.not_lt.mp hbig
          refine ⟨true, [Event.partition_read s.self._updatePartition n HASH_READ_BUFFER_SIZE
              (some buf), Event.hash_addData (buf.take rem)], ?_, ?_, ?_, ?_, ?_, ?_⟩
          · rw [hashLoop_last env s rem n acc buf hpos hsmall hr]
            simp [addedData]
          · intro e he
            simp only [List.mem_cons, List.mem_singleton, List.not_mem_nil, or_false] at he
            rcases he with rfl | rfl <;> rfl
          · simp only [true_iff]
            intro p o l r hm
            simp only [List.mem_cons, List.mem_singleton, List.not_mem_nil, or_false] at hm
            rcases hm with hm | hm
            · cases hm
              rfl
            · cases hm
          · intro _ e he
            simp only [List.mem_cons, List.mem_singleton, List.not_mem_nil, or_false] at he
            rcases he with rfl | rfl <;> rfl
          · intro flash _ hrf
            obtain ⟨hin, hbuf⟩ := hrf _ _ _ _ (List.mem_cons_self _ _)
            simp only [Option.some.injEq] at hbuf
            simp only [addedData, List.append_nil]
            rw [hbuf, slice_take _ _ _ _ hsmall]
          · intro _ p off l r hm
            simp only [List.mem_cons, List.mem_singleton, List.not_mem_nil, or_false] at hm
            rcases hm with hm | hm
            · cases hm
              refine ⟨rfl, Nat.le_refl _, by omega, ?_⟩
              simp
            · cases hm

/-! ## What the hash loop hands to the hasher -/

theorem State.extend_inj (s : State) (a b : List Event) (h : s.extend a = s.extend b) :
    a = b := by
  have ht := congrArg State.trace h
  simp only [State.extend_trace] at ht
  exact List.append_cancel_left ht

theorem addDataWithinBody_of_none (body : Nat) (evs : List Event)
    (h : ∀ d, Event.hash_addData d ∉ evs) : AddDataWithinBody body evs := by
  intro pre d post he
  refine absurd ?_ (h d)
  rw [he]
  simp

theorem addDataWithinBody_append (body : Nat) (a b : List Event)
    (ha : AddDataWithinBody body a) (hb : AddDataWithinBody body b) :
    AddDataWithinBody body (a ++ b) := by
  intro pre d post he
  rcases List.append_eq_append_iff.mp he with ⟨a2, hpre, hb2⟩ | ⟨c2, ha2, hc⟩
  · obtain ⟨pre0, p, off, chunk, h1, h2, h3⟩ := hb a2 d post hb2
    exact ⟨a ++ pre0, p, off, chunk, by rw [hpre, h1, List.append_assoc], h2, h3⟩
  · cases c2 with
    | nil =>
      simp only [List.nil_append] at hc
      obtain ⟨pre0, p, off, chunk, h1, -, -⟩ := hb [] d post (by rw [← hc, List.nil_append])
      simp at h1
    | cons x c3 =>
      simp only [List.cons_append, List.cons.injEq] at hc
      obtain ⟨hx, -⟩ := hc
      subst hx
      exact ha pre d c3 ha2

theorem addDataWithinBody_pair (body : Nat) (p : Option Partition) (off : Nat)
    (chunk d : List Nat) (hoff : off < body)
    (hd : d = chunk.take (min HASH_READ_BUFFER_SIZE (body - off))) :
    AddDataWithinBody body
      [Event.partition_read p off HASH_READ_BUFFER_SIZE (some chunk), Event.hash_addData d] := by
  intro pre d2 post he
  cases pre with
  | nil => simp at he
  | cons x pre2 =>
    cases pre2 with
    | nil =>
      simp only [List.cons_append, List.nil_append, List.cons.injEq,
        Event.hash_addData.injEq] at he
      obtain ⟨hx, hd2, -⟩ := he
      subst hx
      subst hd2
      exact ⟨[], p, off, chunk, rfl, hoff, hd⟩
    | cons y pre3 =>
      simp at he

/-- The calls of the hash loop that has `rem` bytes left and has hashed `n`: every
`addData` hands over the bytes of the chunk read just before it, cut at the end of the
`n + rem` bytes of the body. -/
theorem hashLoop_chunks (env : Env) (rem : Nat) :
    ∀ (s : State) (n : Nat) (acc : List Nat), n + rem ≤ WORD →
      ∃ evs, (hashLoop env s rem n acc).2.1 = s.extend evs ∧
        AddDataWithinBody (n + rem) evs := by
  induction rem using Nat.strong_induction_on with
  | _ rem ih =>
    intro s n acc hn
    rcases Nat.eq_zero_or_pos rem with hz | hpos
    · subst hz
      refine ⟨[], by simp [hashLoop_zero], addDataWithinBody_of_none _ _ (by simp)⟩
    · cases hr : env.esp_partition_read s.trace s.self._updatePartition n HASH_READ_BUFFER_SIZE with
      | none =>
        refine ⟨_, by rw [hashLoop_fail env s rem n acc hpos hr],
          addDataWithinBody_of_none _ _ (by simp)⟩
      | some buf =>
        by_cases hbig : HASH_READ_BUFFER_SIZE < rem
        · have hlt : rem - HASH_READ_BUFFER_SIZE < rem := by
            simp only [HASH_READ_BUFFER_SIZE] at *
            omega
          have hw : wadd n HASH_READ_BUFFER_SIZE = n + HASH_READ_BUFFER_SIZE := by
            apply wadd_eq
            simp only [HASH_READ_BUFFER_SIZE, WORD] at *
            omega
          have hsum : wadd n HASH_READ_BUFFER_SIZE + (rem - HASH_READ_BUFFER_SIZE) = n + rem := by
            rw [hw]
            simp only [HASH_READ_BUFFER_SIZE] at *
            omega
          obtain ⟨evs, h1, h2⟩ := ih _ hlt
            (s.extend [Event.partition_read s.self._updatePartition n HASH_READ_BUFFER_SIZE
              (some buf), Event.hash_addData (buf.take HASH_READ_BUFFER_SIZE)])
            (wadd n HASH_READ_BUFFER_SIZE) (acc ++ buf.take HASH_READ_BUFFER_SIZE)
            (by rw [hsum]; exact hn)
          rw [hsum] at h2
          refine ⟨[Event.partition_read s.self._updatePartition n HASH_READ_BUFFER_SIZE
              (some buf), Event.hash_addData (buf.take HASH_READ_BUFFER_SIZE)] ++ evs, ?_, ?_⟩
          · rw [hashLoop_big env s rem n acc buf hbig hr, h1, State.extend_extend]
          · have hmin : min HASH_READ_BUFFER_SIZE (n + rem - n) = HASH_READ_BUFFER_SIZE := by
              simp only [HASH_READ_BUFFER_SIZE] at *
              omega
            refine addDataWithinBody_append _ _ _
              (addDataWithinBody_pair _ _ _ _ _ (by omega) ?_) h2
            rw [hmin]
        · have hsmall : rem ≤ HASH_READ_BUFFER_SIZE := Nat.not_lt.mp hbig
          have hmin : min HASH_READ_BUFFER_SIZE (n + rem - n) = rem := by
            simp only [HASH_READ_BUFFER_SIZE] at *
            omega
          refine ⟨_, by rw [hashLoop_last env s rem n acc buf hpos hsmall hr],
            addDataWithinBody_pair _ _ _ _ _ (by omega) ?_⟩
          rw [hmin]

/-! ## The shape of a run of the firmware check -/

/-- What `checkMagicBytes` does, by cases on the read and on the comparison. -/
theorem checkMagicBytes_shape (env : Env) (s : State) (off : Nat) :
    (s.self._magicBytesLength = 0 ∧ checkMagicBytes env s off = some (false, s)) ∨
    (s.self._magicBytesLength ≠ 0 ∧
      env.esp_partition_read s.trace s.self._updatePartition off s.self._magicBytesLength = none ∧
      checkMagicBytes env s off = some (false, s.extend [Event.partition_read
        s.self._updatePartition off s.self._magicBytesLength none])) ∨
    (s.self._magicBytesLength ≠ 0 ∧ ∃ bytes,
      env.esp_partition_read s.trace s.self._updatePartition off s.self._magicBytesLength
        = some bytes ∧
      ((s.self._magicBytes = none ∧ checkMagicBytes env s off = none) ∨
        ∃ magic, s.self._magicBytes = some magic ∧
          checkMagicBytes env s off = some (memcmpEq magic bytes s.self._magicBytesLength,
            s.extend [Event.partition_read s.self._updatePartition off
              s.self._magicBytesLength (some bytes)]))) := by
  by_cases hM : s.self._magicBytesLength = 0
  · left
    exact ⟨hM, by simp [checkMagicBytes, hM]⟩
  · right
    cases hr : env.esp_partition_read s.trace s.self._updatePartition off
        s.self._magicBytesLength with
    | none =>
      left
      exact ⟨hM, rfl, by simp [checkMagicBytes, hM, hr]⟩
    | some bytes =>
      right
      refine ⟨hM, bytes, rfl, ?_⟩
      cases hm : s.self._magicBytes with
      | none =>
        left
        exact ⟨rfl, by simp [checkMagicBytes, hM, hr, hm, State.log]⟩
      | some magic =>
        right
        exact ⟨magic, rfl, by simp [checkMagicBytes, hM, hr, hm, State.log, State.extend]⟩


/-- What `checkFirmwareSignature` does, by cases on the length, the pointers, the verdict of
the hash loop, the read of the signature and the verifier's answer. -/
theorem checkFirmwareSignature_shape (env : Env) (s : State) (L : Nat) :
    (L = 0 ∧ checkFirmwareSignature env s L = some (false, s)) ∨
    (L ≠ 0 ∧ s.self._hashAlgorithm = none ∧ checkFirmwareSignature env s L = none) ∨
    (L ≠ 0 ∧ ∃ h, s.self._hashAlgorithm = some h ∧ ∃ ok mid,
      LoopFacts (wsub (wsub s.self._firmwareSize L) SIZEOF_UINT32) ok mid ∧
      ((ok = false ∧
          checkFirmwareSignature env s L = some (false, s.extend (Event.hash_begin :: mid))) ∨
       (ok = true ∧
          ((env.operator_new (s.trace ++ (Event.hash_begin :: mid ++ [Event.hash_end])) L = false ∧
            checkFirmwareSignature env s L = none) ∨
           (env.operator_new (s.trace ++ (Event.hash_begin :: mid ++ [Event.hash_end])) L = true ∧
            ((env.esp_partition_read (s.trace ++ (Event.hash_begin :: mid ++ [Event.hash_end]))
                s.self._updatePartition (wsub (wsub s.self._firmwareSize L) SIZEOF_UINT32) L = none ∧
              checkFirmwareSignature env s L = some (false, s.extend (Event.hash_begin :: mid ++
                [Event.hash_end, Event.partition_read s.self._updatePartition
                  (wsub (wsub s.self._firmwareSize L) SIZEOF_UINT32) L none]))) ∨
             (∃ sig,
                env.esp_partition_read (s.trace ++ (Event.hash_begin :: mid ++ [Event.hash_end]))
                  s.self._updatePartition (wsub (wsub s.self._firmwareSize L) SIZEOF_UINT32) L
                  = some sig ∧
                ((s.self._signatureVerifier = none ∧ checkFirmwareSignature env s L = none) ∨
                 ∃ v, s.self._signatureVerifier = some v ∧
                   checkFirmwareSignature env s L = some
                     (decide (v.verify (h.getHash (addedData mid)) h.hashLength sig L = 0),
                      s.extend (Event.hash_begin :: mid ++
                        [Event.hash_end, Event.partition_read s.self._updatePartition
                          (wsub (wsub s.self._firmwareSize L) SIZEOF_UINT32) L (some sig),
                         Event.verify (h.getHash (addedData mid)) h.hashLength sig L
                           (v.verify (h.getHash (addedData mid)) h.hashLength sig L)])))))))))) := by
  by_cases hL : L = 0
  · left
    exact ⟨hL, by simp [checkFirmwareSignature, hL]⟩
  · right
    cases hh : s.self._hashAlgorithm with
    | none =>
      left
      exact ⟨hL, rfl, by simp [checkFirmwareSignature, hL, hh]⟩
    | some h =>
      right
      refine ⟨hL, h, rfl, ?_⟩
      obtain ⟨ok, mid, h1, h2, h3, h4, h5, h6⟩ := hashLoop_spec env
        (wsub (wsub s.self._firmwareSize L) SIZEOF_UINT32) (s.extend [Event.hash_begin]) 0 []
      refine ⟨ok, mid, ⟨h2, h3, h4, fun flash hle hrf => h5 flash (by omega) hrf,
        fun hle p off l r hm => ?_, fun hle => ?_⟩, ?_⟩
      · obtain ⟨hl, -, hhi, hmod⟩ := h6 (by omega) p off l r hm
        exact ⟨hl, by omega, by simpa using hmod⟩
      · obtain ⟨evs, hc1, hc2⟩ := hashLoop_chunks env
          (wsub (wsub s.self._firmwareSize L) SIZEOF_UINT32) (s.extend [Event.hash_begin]) 0 []
          (by omega)
        rw [h1] at hc1
        have hmid := State.extend_inj _ _ _ hc1
        rw [hmid]
        simpa using hc2
      simp only [State.extend_extend, State.extend_self, List.nil_append,
        List.singleton_append] at h1
      cases ok with
      | false =>
        left
        refine ⟨rfl, ?_⟩
        simp [checkFirmwareSignature, hL, hh, h1]
      | true =>
        right
        refine ⟨rfl, ?_⟩
        cases hnew : env.operator_new
            (s.trace ++ (Event.hash_begin :: mid ++ [Event.hash_end])) L with
        | false =>
          left
          refine ⟨rfl, ?_⟩
          have hnew2 := hnew
          simp only [List.cons_append] at hnew2
          simp [checkFirmwareSignature, hL, hh, h1, hnew2]
        | true =>
          right
          refine ⟨rfl, ?_⟩
          have hnew2 := hnew
          simp only [List.cons_append] at hnew2
          cases hr : env.esp_partition_read
              (s.trace ++ (Event.hash_begin :: mid ++ [Event.hash_end]))
              s.self._updatePartition (wsub (wsub s.self._firmwareSize L) SIZEOF_UINT32) L with
          | none =>
            left
            refine ⟨rfl, ?_⟩
            have hr2 := hr
            simp only [List.cons_append] at hr2
            simp [checkFirmwareSignature, hL, hh, h1, hnew2, hr2]
          | some sig =>
            right
            refine ⟨sig, rfl, ?_⟩
            have hr2 := hr
            simp only [List.cons_append] at hr2
            cases hv : s.self._signatureVerifier with
            | none =>
              left
              refine ⟨rfl, ?_⟩
              simp [checkFirmwareSignature, hL, hh, h1, hnew2, hr2, hv]
            | some v =>
              right
              refine ⟨v, rfl, ?_⟩
              simp [checkFirmwareSignature, hL, hh, h1, hnew2, hr2, hv]


theorem checkMagicBytes_frame (env : Env) (s : State) (off : Nat) (b : Bool) (t : State)
    (h : checkMagicBytes env s off = some (b, t)) :
    ∃ evs, t = s.extend evs ∧ ∀ e ∈ evs, e.isVerification = true := by
  rcases checkMagicBytes_shape env s off with ⟨-, h1⟩ | ⟨-, -, h1⟩ | ⟨-, bytes, -, h1⟩
  · rw [h1] at h
    simp only [Option.some.injEq, Prod.mk.injEq] at h
    exact ⟨[], by simp [h.2.symm], by simp⟩
  · rw [h1] at h
    simp only [Option.some.injEq, Prod.mk.injEq] at h
    exact ⟨_, h.2.symm, by simp [Event.isVerification]⟩
  · rcases h1 with ⟨-, h1⟩ | ⟨magic, -, h1⟩
    · rw [h1] at h
      cases h
    · rw [h1] at h
      simp only [Option.some.injEq, Prod.mk.injEq] at h
      exact ⟨_, h.2.symm, by simp [Event.isVerification]⟩

theorem checkFirmwareSignature_frame (env : Env) (s : State) (L : Nat) (b : Bool) (t : State)
    (h : checkFirmwareSignature env s L = some (b, t)) :
    ∃ evs, t = s.extend evs ∧ ∀ e ∈ evs, e.isVerification = true := by
  rcases checkFirmwareSignature_shape env s L with ⟨-, h1⟩ | ⟨-, -, h1⟩ |
    ⟨-, hh, -, ok, mid, ⟨hver, -, -, -⟩, h1⟩
  · rw [h1] at h
    simp only [Option.some.injEq, Prod.mk.injEq] at h
    exact ⟨[], by simp [h.2.symm], by simp⟩
  · rw [h1] at h
    cases h
  · have hall : ∀ (tail : List Event), (∀ e ∈ tail, e.isVerification = true) →
        ∀ e ∈ Event.hash_begin :: mid ++ tail, e.isVerification = true := by
      intro tail ht e he
      simp only [List.cons_append, List.mem_cons, List.mem_append] at he
      rcases he with rfl | he | he
      · rfl
      · exact hver e he
      · exact ht e he
    rcases h1 with ⟨-, h1⟩ | ⟨-, ⟨-, h1⟩ | ⟨-, ⟨-, h1⟩ | ⟨sig, -, ⟨-, h1⟩ | ⟨v, -, h1⟩⟩⟩⟩
    · rw [h1] at h
      simp only [Option.some.injEq, Prod.mk.injEq] at h
      refine ⟨_, h.2.symm, ?_⟩
      simpa using hall [] (by simp)
    · rw [h1] at h
      cases h
    · rw [h1] at h
      simp only [Option.some.injEq, Prod.mk.injEq] at h
      refine ⟨_, h.2.symm, hall _ ?_⟩
      simp [Event.isVerification]
    · rw [h1] at h
      cases h
    · rw [h1] at h
      simp only [Option.some.injEq, Prod.mk.injEq] at h
      refine ⟨_, h.2.symm, hall _ ?_⟩
      simp [Event.isVerification]

/-! ## The equations of `checkFirmware` -/

theorem checkFirmware_read_fail (env : Env) (s : State)
    (hr : env.esp_partition_read s.trace s.self._updatePartition
      (wsub s.self._firmwareSize SIZEOF_UINT32) SIZEOF_UINT32 = none) :
    checkFirmware env s = some (false, s.extend [Event.partition_read s.self._updatePartition
      (wsub s.self._firmwareSize SIZEOF_UINT32) SIZEOF_UINT32 none]) := by
  simp [checkFirmware, hr]

theorem checkFirmware_too_long (env : Env) (s : State) (buf : List Nat)
    (hr : env.esp_partition_read s.trace s.self._updatePartition
      (wsub s.self._firmwareSize SIZEOF_UINT32) SIZEOF_UINT32 = some buf)
    (hA : wadd (wadd (le32 buf) s.self._magicBytesLength) SIZEOF_UINT32 > s.self._firmwareSize) :
    checkFirmware env s = some (false, s.extend [Event.partition_read s.self._updatePartition
      (wsub s.self._firmwareSize SIZEOF_UINT32) SIZEOF_UINT32 (some buf)]) := by
  simp [checkFirmware, hr, hA]

theorem checkFirmware_no_magic (env : Env) (s : State) (buf : List Nat)
    (hr : env.esp_partition_read s.trace s.self._updatePartition
      (wsub s.self._firmwareSize SIZEOF_UINT32) SIZEOF_UINT32 = some buf)
    (hA : ¬ wadd (wadd (le32 buf) s.self._magicBytesLength) SIZEOF_UINT32 > s.self._firmwareSize)
    (hM : s.self._magicBytesLength = 0) :
    checkFirmware env s =
      if signatureUsed s.self = true then
        checkFirmwareSignature env (s.extend [Event.partition_read s.self._updatePartition
          (wsub s.self._firmwareSize SIZEOF_UINT32) SIZEOF_UINT32 (some buf)]) (le32 buf)
      else
        some (true, s.extend [Event.partition_read s.self._updatePartition
          (wsub s.self._firmwareSize SIZEOF_UINT32) SIZEOF_UINT32 (some buf)]) := by
  have hA2 := hA
  rw [hM] at hA2
  simp [checkFirmware, hr, hA2, magicBytesUsed, hM]

theorem checkFirmware_magic_crash (env : Env) (s : State) (buf : List Nat)
    (hr : env.esp_partition_read s.trace s.self._updatePartition
      (wsub s.self._firmwareSize SIZEOF_UINT32) SIZEOF_UINT32 = some buf)
    (hA : ¬ wadd (wadd (le32 buf) s.self._magicBytesLength) SIZEOF_UINT32 > s.self._firmwareSize)
    (hM : s.self._magicBytesLength ≠ 0)
    (hm : checkMagicBytes env (s.extend [Event.partition_read s.self._updatePartition
        (wsub s.self._firmwareSize SIZEOF_UINT32) SIZEOF_UINT32 (some buf)])
      (s.self._firmwareSize - wadd (wadd (le32 buf) s.self._magicBytesLength) SIZEOF_UINT32)
      = none) :
    checkFirmware env s = none := by
  have hpos : 0 < s.self._magicBytesLength := Nat.pos_of_ne_zero hM
  simp [checkFirmware, hr, hA, magicBytesUsed, hpos, hm]

theorem checkFirmware_magic_false (env : Env) (s : State) (buf : List Nat) (s1 : State)
    (hr : env.esp_partition_read s.trace s.self._updatePartition
      (wsub s.self._firmwareSize SIZEOF_UINT32) SIZEOF_UINT32 = some buf)
    (hA : ¬ wadd (wadd (le32 buf) s.self._magicBytesLength) SIZEOF_UINT32 > s.self._firmwareSize)
    (hM : s.self._magicBytesLength ≠ 0)
    (hm : checkMagicBytes env (s.extend [Event.partition_read s.self._updatePartition
        (wsub s.self._firmwareSize SIZEOF_UINT32) SIZEOF_UINT32 (some buf)])
      (s.self._firmwareSize - wadd (wadd (le32 buf) s.self._magicBytesLength) SIZEOF_UINT32)
      = some (false, s1)) :
    checkFirmware env s = some (false, s1) := by
  have hpos : 0 < s.self._magicBytesLength := Nat.pos_of_ne_zero hM
  simp [checkFirmware, hr, hA, magicBytesUsed, hpos, hm]

theorem checkFirmware_magic_true (env : Env) (s : State) (buf : List Nat) (s1 : State)
    (hr : env.esp_partition_read s.trace s.self._updatePartition
      (wsub s.self._firmwareSize SIZEOF_UINT32) SIZEOF_UINT32 = some buf)
    (hA : ¬ wadd (wadd (le32 buf) s.self._magicBytesLength) SIZEOF_UINT32 > s.self._firmwareSize)
    (hM : s.self._magicBytesLength ≠ 0)
    (hm : checkMagicBytes env (s.extend [Event.partition_read s.self._updatePartition
        (wsub s.self._firmwareSize SIZEOF_UINT32) SIZEOF_UINT32 (some buf)])
      (s.self._firmwareSize - wadd (wadd (le32 buf) s.self._magicBytesLength) SIZEOF_UINT32)
      = some (true, s1)) :
    checkFirmware env s =
      if signatureUsed s1.self = true then checkFirmwareSignature env s1 (le32 buf)
      else some (true, s1) := by
  have hpos : 0 < s.self._magicBytesLength := Nat.pos_of_ne_zero hM
  simp [checkFirmware, hr, hA, magicBytesUsed, hpos, hm]

/-- The firmware check changes nothing but the history, and calls nothing but flash reads,
the hasher and the verifier. -/
theorem checkFirmware_frame (env : Env) (s : State) (b : Bool) (t : State)
    (h : checkFirmware env s = some (b, t)) :
    ∃ evs, t = s.extend evs ∧ ∀ e ∈ evs, e.isVerification = true := by
  have hsig : ∀ (evs : List Event) (L : Nat), (∀ e ∈ evs, e.isVerification = true) →
      (if signatureUsed (s.extend evs).self = true then
          checkFirmwareSignature env (s.extend evs) L
        else some (true, s.extend evs)) = some (b, t) →
      ∃ evs, t = s.extend evs ∧ ∀ e ∈ evs, e.isVerification = true := by
    intro evs L hv hrun
    split at hrun
    · obtain ⟨evs2, h3, h4⟩ := checkFirmwareSignature_frame _ _ _ _ _ hrun
      refine ⟨evs ++ evs2, by rw [h3, State.extend_extend], ?_⟩
      intro e he
      simp only [List.mem_append] at he
      rcases he with he | he
      · exact hv e he
      · exact h4 e he
    · simp only [Option.some.injEq, Prod.mk.injEq] at hrun
      exact ⟨evs, hrun.2.symm, hv⟩
  cases hr : env.esp_partition_read s.trace s.self._updatePartition
      (wsub s.self._firmwareSize SIZEOF_UINT32) SIZEOF_UINT32 with
  | none =>
    rw [checkFirmware_read_fail env s hr] at h
    simp only [Option.some.injEq, Prod.mk.injEq] at h
    exact ⟨_, h.2.symm, by simp [Event.isVerification]⟩
  | some buf =>
    have hv0 : ∀ e ∈ [Event.partition_read s.self._updatePartition
        (wsub s.self._firmwareSize SIZEOF_UINT32) SIZEOF_UINT32 (some buf)],
        e.isVerification = true := by
      simp [Event.isVerification]
    by_cases hA : wadd (wadd (le32 buf) s.self._magicBytesLength) SIZEOF_UINT32
        > s.self._firmwareSize
    · rw [checkFirmware_too_long env s buf hr hA] at h
      simp only [Option.some.injEq, Prod.mk.injEq] at h
      exact ⟨_, h.2.symm, hv0⟩
    · by_cases hM : s.self._magicBytesLength = 0
      · rw [checkFirmware_no_magic env s buf hr hA hM] at h
        exact hsig _ _ hv0 h
      · cases hm : checkMagicBytes env (s.extend [Event.partition_read s.self._updatePartition
            (wsub s.self._firmwareSize SIZEOF_UINT32) SIZEOF_UINT32 (some buf)])
            (s.self._firmwareSize -
              wadd (wadd (le32 buf) s.self._magicBytesLength) SIZEOF_UINT32) with
        | none =>
          rw [checkFirmware_magic_crash env s buf hr hA hM hm] at h
          cases h
        | some r =>
          obtain ⟨b1, s1⟩ := r
          obtain ⟨evs, h1, h2⟩ := checkMagicBytes_frame _ _ _ _ _ hm
          rw [State.extend_extend] at h1
          have hv1 : ∀ e ∈ [Event.partition_read s.self._updatePartition
              (wsub s.self._firmwareSize SIZEOF_UINT32) SIZEOF_UINT32 (some buf)] ++ evs,
              e.isVerification = true := by
            intro e he
            simp only [List.mem_append] at he
            rcases he with he | he
            · exact hv0 e he
            · exact h2 e he
          cases b1 with
          | false =>
            rw [checkFirmware_magic_false env s buf s1 hr hA hM hm] at h
            simp only [Option.some.injEq, Prod.mk.injEq] at h
            exact ⟨_, by rw [← h.2, h1], hv1⟩
          | true =>
            rw [checkFirmware_magic_true env s buf s1 hr hA hM hm, h1] at h
            exact hsig _ _ hv1 h

/-! ## The shape of a run of `finishUpdate` -/

theorem owns_iff (s : State) :
    (isUpdateRunning s && s.self._updateHandle != 0) = true ↔ Owns s := by
  simp [Owns, isUpdateRunning]

/-- What `finishUpdate` does, by cases on the ownership, on `esp_ota_end`, on the firmware
check and on the boot selector. -/
theorem finishUpdate_shape (env : Env) (s : State) :
    (¬ Owns s ∧ finishUpdate env s = some (false, s)) ∨
    (Owns s ∧ env.esp_ota_end s.trace s.self._updateHandle ≠ ESP_OK ∧
      finishUpdate env s = some (false, unlockUpdate (s.extend
        [Event.ota_end s.self._updateHandle (env.esp_ota_end s.trace s.self._updateHandle)]))) ∨
    (Owns s ∧ env.esp_ota_end s.trace s.self._updateHandle = ESP_OK ∧
      ((checkFirmware env (s.extend [Event.ota_end s.self._updateHandle ESP_OK]) = none ∧
          finishUpdate env s = none) ∨
       (∃ evs, checkFirmware env (s.extend [Event.ota_end s.self._updateHandle ESP_OK])
            = some (false, s.extend (Event.ota_end s.self._updateHandle ESP_OK :: evs)) ∧
          (∀ e ∈ evs, e.isVerification = true) ∧
          finishUpdate env s = some (false,
            unlockUpdate (s.extend (Event.ota_end s.self._updateHandle ESP_OK :: evs)))) ∨
       (∃ evs, checkFirmware env (s.extend [Event.ota_end s.self._updateHandle ESP_OK])
            = some (true, s.extend (Event.ota_end s.self._updateHandle ESP_OK :: evs)) ∧
          (∀ e ∈ evs, e.isVerification = true) ∧
          finishUpdate env s = some
            (decide (env.esp_ota_set_boot_partition
                (s.trace ++ Event.ota_end s.self._updateHandle ESP_OK :: evs)
                s.self._updatePartition = ESP_OK),
             unlockUpdate (s.extend (Event.ota_end s.self._updateHandle ESP_OK :: evs ++
               [Event.ota_set_boot_partition s.self._updatePartition
                 (env.esp_ota_set_boot_partition
                   (s.trace ++ Event.ota_end s.self._updateHandle ESP_OK :: evs)
                   s.self._updatePartition)])))))) := by
  by_cases hown : Owns s
  · right
    have hc := (owns_iff s).mpr hown
    by_cases hend : env.esp_ota_end s.trace s.self._updateHandle = ESP_OK
    · right
      refine ⟨hown, hend, ?_⟩
      cases hcheck : checkFirmware env (s.extend [Event.ota_end s.self._updateHandle ESP_OK]) with
      | none =>
        left
        refine ⟨rfl, ?_⟩
        simp [finishUpdate, hc, hend, hcheck]
      | some r =>
        obtain ⟨b, c⟩ := r
        obtain ⟨evs, h1, h2⟩ := checkFirmware_frame _ _ _ _ hcheck
        rw [State.extend_extend, List.singleton_append] at h1
        subst h1
        right
        cases b with
        | false =>
          left
          refine ⟨evs, rfl, h2, ?_⟩
          simp [finishUpdate, hc, hend, hcheck]
        | true =>
          right
          refine ⟨evs, rfl, h2, ?_⟩
          by_cases hboot : env.esp_ota_set_boot_partition
              (s.trace ++ Event.ota_end s.self._updateHandle ESP_OK :: evs)
              s.self._updatePartition = ESP_OK
          · simp [finishUpdate, hc, hend, hcheck, hboot]
          · simp [finishUpdate, hc, hend, hcheck, hboot]
    · left
      refine ⟨hown, hend, ?_⟩
      simp [finishUpdate, hc, hend]
  · left
    refine ⟨hown, ?_⟩
    have hc : ¬ (isUpdateRunning s && s.self._updateHandle != 0) = true :=
      fun h => hown ((owns_iff s).mp h)
    simp only [finishUpdate, hc]
    simp

theorem isSetBoot_of_isVerification (e : Event) (h : e.isVerification = true) :
    e.isSetBoot = false := by
  cases e <;> simp_all [Event.isVerification, Event.isSetBoot]

theorem filter_isSetBoot_verification (evs : List Event)
    (h : ∀ e ∈ evs, e.isVerification = true) : evs.filter Event.isSetBoot = [] := by
  rw [List.filter_eq_nil_iff]
  intro e he
  simp [isSetBoot_of_isVerification e (h e he)]

theorem not_setBoot_mem_verification (evs : List Event)
    (h : ∀ e ∈ evs, e.isVerification = true) (p : Option Partition) (res : esp_err_t) :
    Event.ota_set_boot_partition p res ∉ evs := by
  intro hm
  have := h _ hm
  simp [Event.isVerification] at this


set_option maxRecDepth 100000 in
/-- The signature buffer is not always granted.  With a verifier installed and the 4 bytes
`FF FF FF FF` written, the length field holds `2^32 − 1`; the length check passes, because
the 32-bit sum `L + 0 + 4` wraps around to 3; one byte is hashed; and
`new unsigned char[4294967295]` is refused.  `finishUpdate` does not return, and nothing has
released the lock.  The session `refusedSession` reaches that state from the initial one and
stops there. -/
theorem finishUpdate_signature_buffer_refused :
    finishUpdate (flashEnv erasedSlot) signedOwner4 = none ∧
    (flashEnv erasedSlot).operator_new
      [Event.ota_end 1 ESP_OK,
       Event.partition_read (some 7) 0 4 (some [255, 255, 255, 255]),
       Event.hash_begin,
       Event.partition_read (some 7) 0 256 (some erasedSlot),
       Event.hash_addData [255],
       Event.hash_end] 4294967295 = false ∧
    run (flashEnv erasedSlot) {} refusedSession = none := by
  refine ⟨?_, ?_, ?_⟩
  · rfl
  · rfl
  · rfl

/-! ## Beginning a transaction and writing -/

/-- The slot `beginUpdate` works on: the caller's, or else the next update partition. -/
theorem beginUpdate_true (env : Env) (s : State) (imageSize : Nat) (slot : Option Partition)
    (s1 : State) (h : beginUpdate env s imageSize slot = (true, s1)) :
    s.__updateIsRunning = false ∧ s1.__updateIsRunning = true ∧ s1.self._firmwareSize = 0 ∧
    s1.self._updatePartition = resolvedSlot env s.trace slot ∧
    s1.self._updatePartition ≠ none := by
  unfold beginUpdate lockUpdate at h
  unfold resolvedSlot
  by_cases hrun : s.__updateIsRunning = true
  · simp [hrun] at h
  · simp only [hrun, Bool.false_eq_true, if_false] at h
    have hrun' : s.__updateIsRunning = false := by simpa using hrun
    cases slot with
    | some q =>
      simp only [] at h
      split at h
      · simp at h
      · simp only [Prod.mk.injEq, true_and] at h
        subst h
        simp [hrun', State.log]
    | none =>
      simp only [] at h
      cases hn : env.esp_ota_get_next_update_partition s.trace with
      | none =>
        rw [hn] at h
        simp at h
      | some q =>
        rw [hn] at h
        simp only [] at h
        split at h
        · simp at h
        · simp only [Prod.mk.injEq, true_and] at h
          subst h
          simp [hrun', State.log]

theorem writeFirmwareBytes_frame (env : Env) (s : State) (data : List Nat) (size : Nat) :
    (writeFirmwareBytes env s data size).2.self._updatePartition = s.self._updatePartition ∧
    (writeFirmwareBytes env s data size).2.self._updateHandle = s.self._updateHandle ∧
    (writeFirmwareBytes env s data size).2.__updateIsRunning = s.__updateIsRunning := by
  unfold writeFirmwareBytes
  split
  · simp only []
    split <;> simp [State.log]
  · simp

theorem writeAll_partition (env : Env) (writes : List (List Nat × Nat)) :
    ∀ s : State, (writeAll env s writes).self._updatePartition = s.self._updatePartition := by
  induction writes with
  | nil => intro s; rfl
  | cons w ws ih =>
    intro s
    simp only [writeAll, List.foldl_cons] at ih ⊢
    rw [ih, (writeFirmwareBytes_frame env s w.1 w.2).1]

/-! ## Claims about `finishUpdate` -/

/-- C1: in every run of `finishUpdate` that returns, from any state and with any answers of
the platform, a call of `esp_ota_set_boot_partition` is made only if `esp_ota_end` returned
`ESP_OK` and `checkFirmware` then returned true on this object, and the slot passed to it is
the object's update partition, which is the slot chosen by the `beginUpdate` that opened
the transaction. -/
theorem finishUpdate_boot_only_after_check (env : Env) (s : State) (b : Bool) (t : State)
    (hrun : finishUpdate env s = some (b, t)) (p : Option Partition) (res : esp_err_t)
    (hboot : Event.ota_set_boot_partition p res ∈ eventsSince s t) :
    env.esp_ota_end s.trace s.self._updateHandle = ESP_OK ∧
    (∃ c, checkFirmware env (s.log (Event.ota_end s.self._updateHandle ESP_OK)) = some (true, c)) ∧
    p = s.self._updatePartition ∧
    (∀ (s0 s1 : State) (imageSize : Nat) (slot : Option Partition)
        (writes : List (List Nat × Nat)),
      beginUpdate env s0 imageSize slot = (true, s1) → s = writeAll env s1 writes →
      p = resolvedSlot env s0.trace slot) := by
  have key : env.esp_ota_end s.trace s.self._updateHandle = ESP_OK ∧
      (∃ c, checkFirmware env (s.log (Event.ota_end s.self._updateHandle ESP_OK))
        = some (true, c)) ∧ p = s.self._updatePartition := by
    rcases finishUpdate_shape env s with ⟨-, h⟩ | ⟨-, -, h⟩ | ⟨-, hend, ⟨-, h⟩ | ⟨evs, -, hv, h⟩ |
      ⟨evs, hc, hv, h⟩⟩
    · rw [h] at hrun
      simp only [Option.some.injEq, Prod.mk.injEq] at hrun
      rw [← hrun.2] at hboot
      simp [eventsSince] at hboot
    · rw [h] at hrun
      simp only [Option.some.injEq, Prod.mk.injEq] at hrun
      rw [← hrun.2, eventsSince_unlock_extend] at hboot
      simp at hboot
    · rw [h] at hrun
      cases hrun
    · rw [h] at hrun
      simp only [Option.some.injEq, Prod.mk.injEq] at hrun
      rw [← hrun.2, eventsSince_unlock_extend] at hboot
      simp only [List.mem_cons] at hboot
      rcases hboot with hboot | hboot
      · cases hboot
      · exact absurd hboot (not_setBoot_mem_verification evs hv p res)
    · rw [h] at hrun
      simp only [Option.some.injEq, Prod.mk.injEq] at hrun
      rw [← hrun.2, eventsSince_unlock_extend] at hboot
      simp only [List.cons_append, List.mem_cons, List.mem_append, List.mem_singleton] at hboot
      refine ⟨hend, ⟨_, hc⟩, ?_⟩
      rcases hboot with hboot | hboot | hboot
      · cases hboot
      · exact absurd hboot (not_setBoot_mem_verification evs hv p res)
      · rcases hboot with hboot | hboot
        · cases hboot
          rfl
        · exact absurd hboot (List.not_mem_nil _)
  refine ⟨key.1, key.2.1, key.2.2, ?_⟩
  intro s0 s1 imageSize slot writes hbegin hs
  rw [key.2.2, hs, writeAll_partition]
  exact (beginUpdate_true env s0 imageSize slot s1 hbegin).2.2.2.1

/-- C1, on the 8-byte image with nothing configured: the boot selector is called on
partition 7 after a successful close and a successful check. -/
theorem finishUpdate_boot_only_after_check_witness :
    (flashEnv image8).esp_ota_end (plainOwner 8).trace (plainOwner 8).self._updateHandle = ESP_OK ∧
    (∃ c, checkFirmware (flashEnv image8)
      ((plainOwner 8).log (Event.ota_end (plainOwner 8).self._updateHandle ESP_OK))
        = some (true, c)) ∧
    some 7 = (plainOwner 8).self._updatePartition :=
  have h := finishUpdate_boot_only_after_check (flashEnv image8) (plainOwner 8) true
    (unlockUpdate ((plainOwner 8).extend [Event.ota_end 1 ESP_OK,
      Event.partition_read (some 7) 4 4 (some [0, 0, 0, 0]),
      Event.ota_set_boot_partition (some 7) ESP_OK]))
    (by rfl) (some 7) ESP_OK (by decide)
  ⟨h.1, h.2.1, h.2.2.1⟩

/-- C2: `finishUpdate` returns true exactly when the object owns the active transaction,
`esp_ota_end` returns `ESP_OK`, `checkFirmware` returns true and
`esp_ota_set_boot_partition` on the update partition returns `ESP_OK`; and a run that
returns true has called the boot selector exactly once, on the update partition, with the
result `ESP_OK`. -/
theorem finishUpdate_true_iff (env : Env) (s : State) :
    ((∃ t, finishUpdate env s = some (true, t)) ↔
      Owns s ∧ env.esp_ota_end s.trace s.self._updateHandle = ESP_OK ∧
      ∃ c, checkFirmware env (s.log (Event.ota_end s.self._updateHandle ESP_OK)) = some (true, c) ∧
        env.esp_ota_set_boot_partition c.trace s.self._updatePartition = ESP_OK) ∧
    (∀ t, finishUpdate env s = some (true, t) →
      (eventsSince s t).filter Event.isSetBoot =
        [Event.ota_set_boot_partition s.self._updatePartition ESP_OK]) := by
  rcases finishUpdate_shape env s with ⟨hno, h⟩ | ⟨hown, hend, h⟩ |
    ⟨hown, hend, ⟨hc, h⟩ | ⟨evs, hc, hv, h⟩ | ⟨evs, hc, hv, h⟩⟩
  · refine ⟨⟨?_, fun hr => absurd hr.1 hno⟩, ?_⟩
    · rintro ⟨t, ht⟩
      rw [h] at ht
      simp at ht
    · intro t ht
      rw [h] at ht
      simp at ht
  · refine ⟨⟨?_, fun hr => absurd hr.2.1 hend⟩, ?_⟩
    · rintro ⟨t, ht⟩
      rw [h] at ht
      simp at ht
    · intro t ht
      rw [h] at ht
      simp at ht
  · refine ⟨⟨?_, ?_⟩, ?_⟩
    · rintro ⟨t, ht⟩
      rw [h] at ht
      cases ht
    · rintro ⟨-, -, c, hc2, -⟩
      rw [State.log_eq_extend, hc] at hc2
      cases hc2
    · intro t ht
      rw [h] at ht
      cases ht
  · refine ⟨⟨?_, ?_⟩, ?_⟩
    · rintro ⟨t, ht⟩
      rw [h] at ht
      simp at ht
    · rintro ⟨-, -, c, hc2, -⟩
      rw [State.log_eq_extend, hc] at hc2
      simp at hc2
    · intro t ht
      rw [h] at ht
      simp at ht
  · refine ⟨⟨?_, ?_⟩, ?_⟩
    · rintro ⟨t, ht⟩
      rw [h] at ht
      simp only [Option.some.injEq, Prod.mk.injEq, decide_eq_true_eq] at ht
      exact ⟨hown, hend, _, by rw [State.log_eq_extend]; exact hc, by simpa using ht.1⟩
    · rintro ⟨-, -, c, hc2, hb⟩
      rw [State.log_eq_extend, hc] at hc2
      simp only [Option.some.injEq, Prod.mk.injEq, true_and] at hc2
      subst hc2
      simp only [State.extend_trace] at hb
      refine ⟨unlockUpdate (s.extend (Event.ota_end s.self._updateHandle ESP_OK :: evs ++
        [Event.ota_set_boot_partition s.self._updatePartition ESP_OK])), ?_⟩
      rw [h, hb]
      simp
    · intro t ht
      rw [h] at ht
      simp only [Option.some.injEq, Prod.mk.injEq, decide_eq_true_eq] at ht
      rw [← ht.2, eventsSince_unlock_extend, ht.1]
      simp only [List.cons_append, List.filter_cons, Event.isSetBoot, Bool.false_eq_true,
        if_false, List.filter_append, filter_isSetBoot_verification evs hv, List.nil_append,
        if_true, List.filter_nil]

/-- C2, on the 8-byte image with nothing configured: the run returns true and the only call
of the boot selector is the successful one on partition 7. -/
theorem finishUpdate_true_iff_witness :
    (eventsSince (plainOwner 8) (unlockUpdate ((plainOwner 8).extend [Event.ota_end 1 ESP_OK,
      Event.partition_read (some 7) 4 4 (some [0, 0, 0, 0]),
      Event.ota_set_boot_partition (some 7) ESP_OK]))).filter Event.isSetBoot =
        [Event.ota_set_boot_partition (plainOwner 8).self._updatePartition ESP_OK] :=
  (finishUpdate_true_iff (flashEnv image8) (plainOwner 8)).2 _ (by rfl)

theorem wsub_eq_sub (a b : Nat) (hb : b ≤ a) (ha : a < WORD) : wsub a b = a - b := by
  have h1 : a % WORD = a := Nat.mod_eq_of_lt ha
  have h2 : b % WORD = b := Nat.mod_eq_of_lt (Nat.lt_of_le_of_lt hb ha)
  simp only [wsub, h1, h2, hb, if_true]

theorem wsub_wsub (fs L : Nat) (hfit : L + 4 ≤ fs) (hfs : fs < WORD) :
    wsub (wsub fs L) SIZEOF_UINT32 = fs - L - 4 := by
  rw [wsub_eq_sub fs L (by omega) hfs]
  exact wsub_eq_sub (fs - L) 4 (by omega) (by omega)

theorem readsFrom_cons_other (flash : List Nat) (e : Event) (evs : List Event)
    (h : ∀ p o l r, e ≠ Event.partition_read p o l r) :
    ReadsFrom flash (e :: evs) ↔ ReadsFrom flash evs := by
  constructor
  · intro hr p o l r hm
    exact hr p o l r (List.mem_cons_of_mem _ hm)
  · intro hr p o l r hm
    rcases List.mem_cons.mp hm with hm | hm
    · exact absurd hm.symm (h p o l r)
    · exact hr p o l r hm

theorem readsFrom_cons_read (flash : List Nat) (p : Option Partition) (o l : Nat)
    (r : Option (List Nat)) (evs : List Event) :
    ReadsFrom flash (Event.partition_read p o l r :: evs) ↔
      (o + l ≤ flash.length ∧ r = some (slice flash o l)) ∧ ReadsFrom flash evs := by
  have := readsFrom_append flash [Event.partition_read p o l r] evs
  rw [List.singleton_append] at this
  rw [this, readsFrom_read]

theorem readsFrom_hash_events (flash : List Nat) (mid tail : List Event) :
    ReadsFrom flash (Event.hash_begin :: mid ++ Event.hash_end :: tail) ↔
      ReadsFrom flash mid ∧ ReadsFrom flash tail := by
  rw [List.cons_append, readsFrom_cons_other _ _ _ (by intro p o l r hc; cases hc),
    readsFrom_append, readsFrom_cons_other _ _ _ (by intro p o l r hc; cases hc)]

set_option maxRecDepth 100000 in
theorem signedCheck_run :
    checkFirmware (flashEnv slot256) signedOwner =
      some (true, signedOwner.extend signedCheckEvents) := by
  rfl

/-- C6 as stated fails: with nothing configured, `beginUpdate`, a successful write of 16
bytes `0x55` and `finishUpdate` on a platform where every primitive succeeds: the length
field reads `0x55555555`, `finishUpdate` returns false and the boot selector is not
called. -/
theorem finishUpdate_rejects_plain_image :
    (beginUpdate (flashEnv plainImage16) {} 16 none).1 = true ∧
    (writeFirmwareBytes (flashEnv plainImage16)
      (beginUpdate (flashEnv plainImage16) {} 16 none).2 plainImage16 16).1 = ESP_OK ∧
    plainWritten.self._firmwareSize = 16 ∧
    magicBytesUsed plainWritten.self = false ∧ signatureUsed plainWritten.self = false ∧
    (finishUpdate (flashEnv plainImage16) plainWritten).map Prod.fst = some false ∧
    (finishUpdate (flashEnv plainImage16) plainWritten).map
      (fun r => (eventsSince plainWritten r.2).filter Event.isSetBoot) = some [] := by
  refine ⟨by rfl, by rfl, by rfl, by rfl, by rfl, by rfl, by rfl⟩

/-- C6, amended: with neither magic bytes nor a verifier configured, on an object that owns
the transaction, when `esp_ota_end` succeeds, the read of the length field succeeds and
yields `L` with `L + 4 ≤ bytes_written`, `checkFirmware` returns true; when
`esp_ota_set_boot_partition` then succeeds, `finishUpdate` returns true after exactly one
call of the boot selector, on the slot of the transaction. -/
theorem finishUpdate_unconfigured (env : Env) (s : State) (buf : List Nat) (hown : Owns s)
    (hmagic : s.self._magicBytesLength = 0) (hver : s.self._signatureVerifier = none)
    (hfs : s.self._firmwareSize < WORD)
    (hend : env.esp_ota_end s.trace s.self._updateHandle = ESP_OK)
    (hread : env.esp_partition_read (s.trace ++ [Event.ota_end s.self._updateHandle ESP_OK])
      s.self._updatePartition (wsub s.self._firmwareSize SIZEOF_UINT32) SIZEOF_UINT32 = some buf)
    (hfit : le32 buf + 4 ≤ s.self._firmwareSize)
    (hboot : env.esp_ota_set_boot_partition
      (s.trace ++ [Event.ota_end s.self._updateHandle ESP_OK,
        Event.partition_read s.self._updatePartition (wsub s.self._firmwareSize SIZEOF_UINT32)
          SIZEOF_UINT32 (some buf)]) s.self._updatePartition = ESP_OK) :
    checkFirmware env (s.log (Event.ota_end s.self._updateHandle ESP_OK)) =
      some (true, s.extend [Event.ota_end s.self._updateHandle ESP_OK,
        Event.partition_read s.self._updatePartition (wsub s.self._firmwareSize SIZEOF_UINT32)
          SIZEOF_UINT32 (some buf)]) ∧
    ∃ t, finishUpdate env s = some (true, t) ∧
      (eventsSince s t).filter Event.isSetBoot =
        [Event.ota_set_boot_partition s.self._updatePartition ESP_OK] := by
  have hA : ¬ wadd (wadd (le32 buf) (s.extend [Event.ota_end s.self._updateHandle
      ESP_OK]).self._magicBytesLength) SIZEOF_UINT32 >
      (s.extend [Event.ota_end s.self._updateHandle ESP_OK]).self._firmwareSize := by
    simp only [State.extend_self, hmagic]
    rw [wadd_eq _ 0 (by omega)]
    have : wadd (le32 buf + 0) SIZEOF_UINT32 = le32 buf + 0 + 4 := wadd_eq _ 4 (by omega)
    rw [this]
    omega
  have hcheck : checkFirmware env (s.log (Event.ota_end s.self._updateHandle ESP_OK)) =
      some (true, s.extend [Event.ota_end s.self._updateHandle ESP_OK,
        Event.partition_read s.self._updatePartition (wsub s.self._firmwareSize SIZEOF_UINT32)
          SIZEOF_UINT32 (some buf)]) := by
    rw [State.log_eq_extend, checkFirmware_no_magic env _ buf hread hA hmagic]
    simp [signatureUsed, hver]
  refine ⟨hcheck, unlockUpdate (s.extend [Event.ota_end s.self._updateHandle ESP_OK,
    Event.partition_read s.self._updatePartition (wsub s.self._firmwareSize SIZEOF_UINT32)
      SIZEOF_UINT32 (some buf),
    Event.ota_set_boot_partition s.self._updatePartition ESP_OK]), ?_, ?_⟩
  · have hc := (owns_iff s).mpr hown
    have hcheck2 := hcheck
    rw [State.log_eq_extend] at hcheck2
    simp [finishUpdate, hc, hend, hcheck2, hboot]
  · rw [eventsSince_unlock_extend]
    rfl

/-- C6 (amended) on the 8-byte image whose length field holds 0. -/
theorem finishUpdate_unconfigured_witness :
    checkFirmware (flashEnv image8) ((plainOwner 8).log (Event.ota_end 1 ESP_OK)) =
      some (true, (plainOwner 8).extend [Event.ota_end 1 ESP_OK,
        Event.partition_read (some 7) (wsub 8 SIZEOF_UINT32) SIZEOF_UINT32 (some [0, 0, 0, 0])]) ∧
    ∃ t, finishUpdate (flashEnv image8) (plainOwner 8) = some (true, t) ∧
      (eventsSince (plainOwner 8) t).filter Event.isSetBoot =
        [Event.ota_set_boot_partition (some 7) ESP_OK] :=
  finishUpdate_unconfigured (flashEnv image8) (plainOwner 8) [0, 0, 0, 0] ⟨rfl, by decide⟩
    rfl rfl (by decide) rfl (by rfl) (by decide) rfl

/-- C7, the failing input: four written bytes `0xFF`, nothing configured.  The length
field holds `L = 2^32 − 1`, so `L + M + 4` exceeds the 4 written bytes, but the 32-bit sum
is 3: `checkFirmware` returns true and `finishUpdate` commits the slot. -/
theorem checkFirmware_accepts_wrapped_length :
    le32 imageFF + (plainOwner 4).self._magicBytesLength + 4 > (plainOwner 4).self._firmwareSize ∧
    wadd (wadd (le32 imageFF) (plainOwner 4).self._magicBytesLength) SIZEOF_UINT32 = 3 ∧
    (checkFirmware (flashEnv imageFF) ((plainOwner 4).log (Event.ota_end 1 ESP_OK))).map Prod.fst
      = some true ∧
    finishUpdate (flashEnv imageFF) (plainOwner 4) =
      some (true, unlockUpdate ((plainOwner 4).extend [Event.ota_end 1 ESP_OK,
        Event.partition_read (some 7) 0 4 (some imageFF),
        Event.ota_set_boot_partition (some 7) ESP_OK])) := by
  refine ⟨by decide, by rfl, by rfl, by rfl⟩

/-- A failed firmware check makes `finishUpdate` return false without a call of the boot
selector. -/
theorem finishUpdate_of_check_false (env : Env) (s : State) (c : State) (hown : Owns s)
    (hend : env.esp_ota_end s.trace s.self._updateHandle = ESP_OK)
    (hcheck : checkFirmware env (s.extend [Event.ota_end s.self._updateHandle ESP_OK])
      = some (false, c)) :
    ∃ t, finishUpdate env s = some (false, t) ∧ (eventsSince s t).filter Event.isSetBoot = [] := by
  rcases finishUpdate_shape env s with ⟨hno, -⟩ | ⟨-, hne, -⟩ | ⟨-, -, ⟨hn, -⟩ | ⟨evs, -, hv, h⟩ |
    ⟨evs, hc, -, -⟩⟩
  · exact absurd hown hno
  · exact absurd hend hne
  · rw [hn] at hcheck
    cases hcheck
  · refine ⟨_, h, ?_⟩
    rw [eventsSince_unlock_extend]
    simp only [List.filter_cons, Event.isSetBoot, Bool.false_eq_true, if_false]
    exact filter_isSetBoot_verification evs hv
  · rw [hc] at hcheck
    simp at hcheck

/-- C8: with magic bytes configured (`M > 0`), inside `finishUpdate` on an object that owns
the transaction, after a successful `esp_ota_end` and a successful read of a length field
`L` with `L + M + 4 ≤ bytes_written`: `checkFirmware` returns true only if the read of the
`M` bytes at offset `bytes_written − (L + M + 4)` succeeded and delivered bytes equal,
byte for byte, to the configured magic; and if that read fails or the bytes differ,
`checkFirmware` returns false, `finishUpdate` returns false and the boot selector is not
called. -/
theorem magic_mismatch_blocks_commit (env : Env) (s : State) (buf : List Nat) (hown : Owns s)
    (hend : env.esp_ota_end s.trace s.self._updateHandle = ESP_OK)
    (hread : env.esp_partition_read (s.trace ++ [Event.ota_end s.self._updateHandle ESP_OK])
      s.self._updatePartition (wsub s.self._firmwareSize SIZEOF_UINT32) SIZEOF_UINT32 = some buf)
    (hM : 0 < s.self._magicBytesLength)
    (hfit : le32 buf + s.self._magicBytesLength + 4 ≤ s.self._firmwareSize)
    (hfs : s.self._firmwareSize < WORD) :
    (∀ t, checkFirmware env (s.log (Event.ota_end s.self._updateHandle ESP_OK)) = some (true, t) →
      ∃ bytes magic,
        env.esp_partition_read
          (s.trace ++ [Event.ota_end s.self._updateHandle ESP_OK,
            Event.partition_read s.self._updatePartition
              (wsub s.self._firmwareSize SIZEOF_UINT32) SIZEOF_UINT32 (some buf)])
          s.self._updatePartition
          (s.self._firmwareSize - (le32 buf + s.self._magicBytesLength + 4))
          s.self._magicBytesLength = some bytes ∧
        s.self._magicBytes = some magic ∧
        magic.take s.self._magicBytesLength = bytes.take s.self._magicBytesLength) ∧
    ((env.esp_partition_read
          (s.trace ++ [Event.ota_end s.self._updateHandle ESP_OK,
            Event.partition_read s.self._updatePartition
              (wsub s.self._firmwareSize SIZEOF_UINT32) SIZEOF_UINT32 (some buf)])
          s.self._updatePartition
          (s.self._firmwareSize - (le32 buf + s.self._magicBytesLength + 4))
          s.self._magicBytesLength = none ∨
        ∃ bytes magic,
          env.esp_partition_read
            (s.trace ++ [Event.ota_end s.self._updateHandle ESP_OK,
              Event.partition_read s.self._updatePartition
                (wsub s.self._firmwareSize SIZEOF_UINT32) SIZEOF_UINT32 (some buf)])
            s.self._updatePartition
            (s.self._firmwareSize - (le32 buf + s.self._magicBytesLength + 4))
            s.self._magicBytesLength = some bytes ∧
          s.self._magicBytes = some magic ∧
          magic.take s.self._magicBytesLength ≠ bytes.take s.self._magicBytesLength) →
      (∃ c, checkFirmware env (s.log (Event.ota_end s.self._updateHandle ESP_OK))
        = some (false, c)) ∧
      ∃ t, finishUpdate env s = some (false, t) ∧
        (eventsSince s t).filter Event.isSetBoot = []) := by
  have hMne : s.self._magicBytesLength ≠ 0 := Nat.pos_iff_ne_zero.mp hM
  have e1 : wadd (le32 buf) s.self._magicBytesLength = le32 buf + s.self._magicBytesLength :=
    wadd_eq _ _ (by omega)
  have hA : wadd (wadd (le32 buf) s.self._magicBytesLength) SIZEOF_UINT32 =
      le32 buf + s.self._magicBytesLength + 4 := by
    rw [e1]
    exact wadd_eq _ 4 (by omega)
  have hnot : ¬ wadd (wadd (le32 buf) (s.extend [Event.ota_end s.self._updateHandle
      ESP_OK]).self._magicBytesLength) SIZEOF_UINT32 >
      (s.extend [Event.ota_end s.self._updateHandle ESP_OK]).self._firmwareSize := by
    simp only [State.extend_self]
    rw [hA]
    omega
  have hshape := checkMagicBytes_shape env
    ((s.extend [Event.ota_end s.self._updateHandle ESP_OK]).extend
      [Event.partition_read s.self._updatePartition
        (wsub s.self._firmwareSize SIZEOF_UINT32) SIZEOF_UINT32 (some buf)])
    (s.self._firmwareSize - wadd (wadd (le32 buf) s.self._magicBytesLength) SIZEOF_UINT32)
  simp only [State.extend_self, State.extend_extend, State.extend_trace,
    List.singleton_append, List.append_assoc] at hshape
  rw [hA] at hshape
  rw [State.log_eq_extend]
  rcases hshape with ⟨h0, -⟩ | ⟨-, hnone, h1⟩ | ⟨-, bytes, hsome, ⟨hmn, h1⟩ | ⟨magic, hmagic, h1⟩⟩
  · exact absurd h0 hMne
  · have hcm := checkFirmware_magic_false env
      (s.extend [Event.ota_end s.self._updateHandle ESP_OK]) buf _ hread hnot hMne
      (by simp only [State.extend_self, State.extend_extend, List.singleton_append]
          rw [hA]
          exact h1)
    constructor
    · intro t ht
      rw [hcm] at ht
      simp at ht
    · intro _
      exact ⟨⟨_, hcm⟩, finishUpdate_of_check_false env s _ hown hend hcm⟩
  · have hcm := checkFirmware_magic_crash env
      (s.extend [Event.ota_end s.self._updateHandle ESP_OK]) buf hread hnot hMne
      (by simp only [State.extend_self, State.extend_extend, List.singleton_append]
          rw [hA]
          exact h1)
    constructor
    · intro t ht
      rw [hcm] at ht
      cases ht
    · rintro (hn | ⟨bytes2, magic2, -, hm2, -⟩)
      · rw [hsome] at hn
        cases hn
      · rw [hmn] at hm2
        cases hm2
  · cases hcmp : memcmpEq magic bytes s.self._magicBytesLength with
    | false =>
      rw [hcmp] at h1
      have hcm := checkFirmware_magic_false env
        (s.extend [Event.ota_end s.self._updateHandle ESP_OK]) buf _ hread hnot hMne
        (by simp only [State.extend_self, State.extend_extend, List.singleton_append]
            rw [hA]
            exact h1)
      constructor
      · intro t ht
        rw [hcm] at ht
        simp at ht
      · intro _
        exact ⟨⟨_, hcm⟩, finishUpdate_of_check_false env s _ hown hend hcm⟩
    | true =>
      have heq : magic.take s.self._magicBytesLength = bytes.take s.self._magicBytesLength := by
        simpa [memcmpEq] using hcmp
      constructor
      · intro t _
        exact ⟨bytes, magic, hsome, hmagic, heq⟩
      · rintro (hn | ⟨bytes2, magic2, hb2, hm2, hne⟩)
        · rw [hsome] at hn
          cases hn
        · rw [hsome] at hb2
          rw [hmagic] at hm2
          cases hb2
          cases hm2
          exact absurd heq hne

/-- C8 on the 10-byte image that carries `[7, 8]` in the place of the magic `[7, 7]`: the
check fails, `finishUpdate` returns false and the boot selector is not called. -/
theorem magic_mismatch_blocks_commit_witness :
    (∃ c, checkFirmware (flashEnv imageWrongMagic)
      (magicOwner.log (Event.ota_end magicOwner.self._updateHandle ESP_OK)) = some (false, c)) ∧
    ∃ t, finishUpdate (flashEnv imageWrongMagic) magicOwner = some (false, t) ∧
      (eventsSince magicOwner t).filter Event.isSetBoot = [] :=
  (magic_mismatch_blocks_commit (flashEnv imageWrongMagic) magicOwner [0, 0, 0, 0]
    ⟨rfl, by decide⟩ rfl (by rfl) (by decide) (by decide) (by decide)).2
    (Or.inr ⟨[7, 8], [7, 7], by rfl, rfl, by decide⟩)

/-! ## Claims about `checkFirmwareSignature` -/

theorem addedData_hash_events (mid : List Event) :
    addedData (Event.hash_begin :: mid ++ [Event.hash_end]) = addedData mid := by
  rw [List.cons_append]
  simp [addedData, addedData_append]

/-- C9: for an image with `L > 0` and `L + 4 ≤ bytes_written`, in a run of
`checkFirmwareSignature` whose flash reads all succeed, the calls are `begin()`, then chunk
reads and `addData` calls only, then `end()`, then the rest; the data handed to `addData`
between `begin()` and `end()`, concatenated in order, is exactly the first
`bytes_written − L − 4` bytes of the slot, whatever that length is; no `addData` follows
`end()`; and for every magic length `M` with `L + M + 4 ≤ bytes_written` these bytes end
with the `M` bytes at offset `bytes_written − (L + M + 4)`, the magic bytes. -/
theorem hashed_data_is_body (env : Env) (u : State) (flash : List Nat) (L : Nat) (b : Bool)
    (t : State) (hrun : checkFirmwareSignature env u L = some (b, t))
    (hreads : ReadsFrom flash (eventsSince u t))
    (hL : 0 < L) (hfit : L + 4 ≤ u.self._firmwareSize) (hfs : u.self._firmwareSize < WORD) :
    ∃ mid tail, eventsSince u t = Event.hash_begin :: mid ++ Event.hash_end :: tail ∧
      (∀ e ∈ mid, e.isLoopStep = true) ∧
      addedData mid = flash.take (u.self._firmwareSize - L - 4) ∧
      (addedData mid).length = u.self._firmwareSize - L - 4 ∧
      addedData tail = [] ∧
      (∀ M, L + M + 4 ≤ u.self._firmwareSize →
        addedData mid = flash.take (u.self._firmwareSize - (L + M + 4)) ++
          slice flash (u.self._firmwareSize - (L + M + 4)) M) := by
  have hoff := wsub_wsub u.self._firmwareSize L hfit hfs
  have hmagicPart : ∀ M, L + M + 4 ≤ u.self._firmwareSize →
      flash.take (u.self._firmwareSize - L - 4) =
        flash.take (u.self._firmwareSize - (L + M + 4)) ++
          slice flash (u.self._firmwareSize - (L + M + 4)) M := by
    intro M hM
    rw [← slice_from_zero, ← slice_from_zero]
    have := slice_append flash 0 (u.self._firmwareSize - (L + M + 4)) M
    rw [Nat.zero_add] at this
    rw [this]
    congr 1
    omega
  rcases checkFirmwareSignature_shape env u L with ⟨hz, -⟩ | ⟨-, -, h1⟩ |
    ⟨-, h, hh, ok, mid, ⟨-, hok, hstep, hdata, -⟩, h1⟩
  · omega
  · rw [h1] at hrun
    cases hrun
  · rw [hoff] at h1 hdata
    rcases h1 with ⟨hf, h1⟩ | ⟨hokt, ⟨-, h1⟩ | ⟨-, ⟨-, h1⟩ | ⟨sig, -, ⟨-, h1⟩ | ⟨v, hv, h1⟩⟩⟩⟩
    · rw [h1] at hrun
      simp only [Option.some.injEq, Prod.mk.injEq] at hrun
      rw [← hrun.2, eventsSince_extend,
        readsFrom_cons_other _ _ _ (by intro p o l r hc; cases hc)] at hreads
      have := hok.mpr (readsFrom_succeeded flash mid hreads)
      rw [hf] at this
      cases this
    · rw [h1] at hrun
      cases hrun
    · rw [h1] at hrun
      simp only [Option.some.injEq, Prod.mk.injEq] at hrun
      rw [← hrun.2, eventsSince_extend, readsFrom_hash_events, readsFrom_read] at hreads
      have := hreads.2.2
      cases this
    · rw [h1] at hrun
      cases hrun
    · rw [h1] at hrun
      simp only [Option.some.injEq, Prod.mk.injEq] at hrun
      rw [← hrun.2, eventsSince_extend] at hreads ⊢
      rw [readsFrom_hash_events, readsFrom_cons_read] at hreads
      obtain ⟨hmid, ⟨hin, -⟩, -⟩ := hreads
      have hd := hdata flash (by omega) hmid
      rw [slice_from_zero] at hd
      refine ⟨mid, _, rfl, hstep hokt, hd, ?_, ?_, ?_⟩
      · rw [hd, List.length_take]
        omega
      · simp [addedData]
      · intro M hM
        rw [hd]
        exact hmagicPart M hM

set_option maxRecDepth 100000 in
theorem signedSignature_run :
    checkFirmwareSignature (flashEnv slot256) signedAtSignature 3 =
      some (true, signedAtSignature.extend signedSignatureEvents) := by
  rfl

set_option maxRecDepth 100000 in
theorem signedSignature_reads : ReadsFrom slot256 signedSignatureEvents := by
  intro p off len r hm
  simp only [signedSignatureEvents, List.mem_cons, Event.partition_read.injEq,
    List.mem_singleton, List.not_mem_nil, or_false] at hm
  rcases hm with h | h | h | h | h | h
  · cases h
  · obtain ⟨-, rfl, rfl, rfl⟩ := h
    exact ⟨by decide, rfl⟩
  · cases h
  · cases h
  · obtain ⟨-, rfl, rfl, rfl⟩ := h
    exact ⟨by decide, rfl⟩
  · cases h

/-- C9 on the signed 10-byte image: the three bytes `[9, 7, 7]`, body and magic, are what
the hasher receives. -/
theorem hashed_data_is_body_witness :
    ∃ mid tail, eventsSince signedAtSignature (signedAtSignature.extend signedSignatureEvents)
        = Event.hash_begin :: mid ++ Event.hash_end :: tail ∧
      (∀ e ∈ mid, e.isLoopStep = true) ∧
      addedData mid = slot256.take (signedAtSignature.self._firmwareSize - 3 - 4) ∧
      (addedData mid).length = signedAtSignature.self._firmwareSize - 3 - 4 ∧
      addedData tail = [] ∧
      (∀ M, 3 + M + 4 ≤ signedAtSignature.self._firmwareSize →
        addedData mid = slot256.take (signedAtSignature.self._firmwareSize - (3 + M + 4)) ++
          slice slot256 (signedAtSignature.self._firmwareSize - (3 + M + 4)) M) :=
  hashed_data_is_body (flashEnv slot256) signedAtSignature slot256 3 true
    (signedAtSignature.extend signedSignatureEvents) signedSignature_run
    (by rw [eventsSince_extend]; exact signedSignature_reads)
    (by decide) (by decide) (by decide)

theorem readsSucceeded_hash_events (mid tail : List Event) :
    ReadsSucceeded (Event.hash_begin :: mid ++ Event.hash_end :: tail) ↔
      ReadsSucceeded mid ∧ ReadsSucceeded tail := by
  have h1 : ∀ evs, ReadsSucceeded (Event.hash_begin :: evs) ↔ ReadsSucceeded evs := by
    intro evs
    have := readsSucceeded_append [Event.hash_begin] evs
    rw [List.singleton_append] at this
    rw [this]
    exact ⟨fun h => h.2, fun h => ⟨readsSucceeded_other _ (by intro p o l r hc; cases hc), h⟩⟩
  have h2 : ∀ evs, ReadsSucceeded (Event.hash_end :: evs) ↔ ReadsSucceeded evs := by
    intro evs
    have := readsSucceeded_append [Event.hash_end] evs
    rw [List.singleton_append] at this
    rw [this]
    exact ⟨fun h => h.2, fun h => ⟨readsSucceeded_other _ (by intro p o l r hc; cases hc), h⟩⟩
  rw [List.cons_append, h1, readsSucceeded_append, h2]

/-- C10: a run of `checkFirmwareSignature(L)` returns true exactly when `L ≠ 0`, every
flash read of the run succeeded, and the run ends with the read of `L` bytes at offset
`bytes_written − L − 4` (computed in 32-bit words) followed by a call of `verify` on the
digest of the data the hasher received, the digest length, the bytes that read delivered
and `L`, with the result 0.  Whenever `L + 4 ≤ bytes_written` the offset is the exact
difference. -/
theorem checkFirmwareSignature_true_iff (env : Env) (s : State) (L : Nat) (b : Bool)
    (t : State) (hrun : checkFirmwareSignature env s L = some (b, t)) :
    (b = true ↔ L ≠ 0 ∧ ReadsSucceeded (eventsSince s t) ∧
      ∃ h v pre sig, s.self._hashAlgorithm = some h ∧ s.self._signatureVerifier = some v ∧
        eventsSince s t = pre ++
          [Event.partition_read s.self._updatePartition
            (wsub (wsub s.self._firmwareSize L) SIZEOF_UINT32) L (some sig),
           Event.verify (h.getHash (addedData pre)) h.hashLength sig L 0] ∧
        v.verify (h.getHash (addedData pre)) h.hashLength sig L = 0) ∧
    (L + 4 ≤ s.self._firmwareSize → s.self._firmwareSize < WORD →
      wsub (wsub s.self._firmwareSize L) SIZEOF_UINT32 = s.self._firmwareSize - L - 4) := by
  refine ⟨?_, wsub_wsub _ _⟩
  rcases checkFirmwareSignature_shape env s L with ⟨hz, h1⟩ | ⟨-, -, h1⟩ |
    ⟨hL, h, hh, ok, mid, ⟨-, hok, -, -⟩, h1⟩
  · rw [h1] at hrun
    simp only [Option.some.injEq, Prod.mk.injEq] at hrun
    rw [← hrun.1]
    simp [hz]
  · rw [h1] at hrun
    cases hrun
  · rcases h1 with ⟨hf, h1⟩ | ⟨hokt, ⟨-, h1⟩ | ⟨-, ⟨-, h1⟩ | ⟨sig, -, ⟨-, h1⟩ | ⟨v, hv, h1⟩⟩⟩⟩
    · rw [h1] at hrun
      simp only [Option.some.injEq, Prod.mk.injEq] at hrun
      rw [← hrun.1, ← hrun.2, eventsSince_extend]
      simp only [Bool.false_eq_true, false_iff, not_and]
      intro _ hsucc
      have hmid : ReadsSucceeded mid := by
        have := readsSucceeded_append [Event.hash_begin] mid
        rw [List.singleton_append] at this
        exact (this.mp hsucc).2
      have := hok.mpr hmid
      rw [hf] at this
      cases this
    · rw [h1] at hrun
      cases hrun
    · rw [h1] at hrun
      simp only [Option.some.injEq, Prod.mk.injEq] at hrun
      rw [← hrun.1, ← hrun.2, eventsSince_extend]
      simp only [Bool.false_eq_true, false_iff, not_and]
      intro _ hsucc
      rw [readsSucceeded_hash_events] at hsucc
      have := (readsSucceeded_read _ _ _ _).mp hsucc.2
      cases this
    · rw [h1] at hrun
      cases hrun
    · rw [h1] at hrun
      simp only [Option.some.injEq, Prod.mk.injEq] at hrun
      rw [← hrun.1, ← hrun.2, eventsSince_extend]
      have hsplit : Event.hash_begin :: mid ++
          [Event.hash_end, Event.partition_read s.self._updatePartition
            (wsub (wsub s.self._firmwareSize L) SIZEOF_UINT32) L (some sig),
           Event.verify (h.getHash (addedData mid)) h.hashLength sig L
             (v.verify (h.getHash (addedData mid)) h.hashLength sig L)] =
          (Event.hash_begin :: mid ++ [Event.hash_end]) ++
          [Event.partition_read s.self._updatePartition
            (wsub (wsub s.self._firmwareSize L) SIZEOF_UINT32) L (some sig),
           Event.verify (h.getHash (addedData mid)) h.hashLength sig L
             (v.verify (h.getHash (addedData mid)) h.hashLength sig L)] := by
        simp
      simp only [decide_eq_true_eq]
      constructor
      · intro hz
        refine ⟨hL, ?_, h, v, Event.hash_begin :: mid ++ [Event.hash_end], sig, hh, hv, ?_, ?_⟩
        · rw [readsSucceeded_hash_events]
          refine ⟨hok.mp hokt, ?_⟩
          intro p o l r hm
          simp only [List.mem_cons, List.mem_singleton, List.not_mem_nil, or_false] at hm
          rcases hm with hm | hm
          · cases hm
            rfl
          · cases hm
        · rw [hsplit, addedData_hash_events, hz]
        · rw [addedData_hash_events]
          exact hz
      · rintro ⟨-, -, h2, v2, pre, sig2, hh2, hv2, hev, hz⟩
        rw [hsplit] at hev
        have hinj := List.append_inj' hev rfl
        obtain ⟨hpre, htail⟩ := hinj
        simp only [List.cons.injEq, Event.partition_read.injEq, Option.some.injEq,
          Event.verify.injEq, and_true, true_and] at htail
        exact htail.2.2.2.2

/-- C10 on the signed 10-byte image: the signature check returns true, every read
succeeded and `verify` answered 0 on the digest and the three stored signature bytes. -/
theorem checkFirmwareSignature_true_iff_witness :
    (true = true ↔ 3 ≠ 0 ∧
      ReadsSucceeded (eventsSince signedAtSignature
        (signedAtSignature.extend signedSignatureEvents)) ∧
      ∃ h v pre sig, signedAtSignature.self._hashAlgorithm = some h ∧
        signedAtSignature.self._signatureVerifier = some v ∧
        eventsSince signedAtSignature (signedAtSignature.extend signedSignatureEvents) = pre ++
          [Event.partition_read signedAtSignature.self._updatePartition
            (wsub (wsub signedAtSignature.self._firmwareSize 3) SIZEOF_UINT32) 3 (some sig),
           Event.verify (h.getHash (addedData pre)) h.hashLength sig 3 0] ∧
        v.verify (h.getHash (addedData pre)) h.hashLength sig 3 = 0) ∧
    (3 + 4 ≤ signedAtSignature.self._firmwareSize → signedAtSignature.self._firmwareSize < WORD →
      wsub (wsub signedAtSignature.self._firmwareSize 3) SIZEOF_UINT32
        = signedAtSignature.self._firmwareSize - 3 - 4) :=
  checkFirmwareSignature_true_iff (flashEnv slot256) signedAtSignature 3 true
    (signedAtSignature.extend signedSignatureEvents) signedSignature_run

/-! ## Claims about `writeFirmwareBytes` -/

/-- What `writeFirmwareBytes` does, by cases on the ownership and on `esp_ota_write`. -/
theorem writeFirmwareBytes_shape (env : Env) (s : State) (data : List Nat) (size : Nat) :
    (¬ Owns s ∧ writeFirmwareBytes env s data size = (ESP_FAIL, s)) ∨
    (Owns s ∧ env.esp_ota_write s.trace s.self._updateHandle data size ≠ ESP_OK ∧
      writeFirmwareBytes env s data size =
        (env.esp_ota_write s.trace s.self._updateHandle data size,
          s.extend [Event.ota_write s.self._updateHandle data size
            (env.esp_ota_write s.trace s.self._updateHandle data size)])) ∨
    (Owns s ∧ env.esp_ota_write s.trace s.self._updateHandle data size = ESP_OK ∧
      writeFirmwareBytes env s data size =
        (ESP_OK,
          { s.extend [Event.ota_write s.self._updateHandle data size ESP_OK] with
            self := { s.self with _firmwareSize := wadd s.self._firmwareSize size } })) := by
  by_cases hown : Owns s
  · right
    have hc := (owns_iff s).mpr hown
    by_cases hw : env.esp_ota_write s.trace s.self._updateHandle data size = ESP_OK
    · right
      refine ⟨hown, hw, ?_⟩
      simp [writeFirmwareBytes, hc, hw, State.log, State.extend]
    · left
      refine ⟨hown, hw, ?_⟩
      simp [writeFirmwareBytes, hc, hw, State.log, State.extend]
  · left
    have hc : ¬ (isUpdateRunning s && s.self._updateHandle != 0) = true :=
      fun h => hown ((owns_iff s).mp h)
    refine ⟨hown, ?_⟩
    simp only [writeFirmwareBytes, hc]
    simp

/-- C11 as stated fails: on a counter that holds `2^32 − 1`, a successful write of one
byte leaves the counter at 0, not at `2^32`. -/
theorem writeFirmwareBytes_counter_wraps :
    (writeFirmwareBytes (flashEnv []) fullCounterOwner [0] 1).1 = ESP_OK ∧
    fullCounterOwner.self._firmwareSize = 4294967295 ∧
    (writeFirmwareBytes (flashEnv []) fullCounterOwner [0] 1).2.self._firmwareSize = 0 := by
  refine ⟨by rfl, by rfl, by rfl⟩

/-- C11, amended: after a `writeFirmwareBytes` call that returns `ESP_OK`, the 32-bit
counter `_firmwareSize` holds the old value plus the input length modulo `2^32`, which is
exactly the old value plus the input length whenever that sum is below `2^32`; hence after
a sequence of writes that all return `ESP_OK`, starting from a counter below `2^32`, it
holds the old value plus the sum of the lengths modulo `2^32`, and exactly the old value
plus the sum of the lengths whenever that is below `2^32`. -/
theorem writeFirmwareBytes_counter (env : Env) (s : State) :
    (∀ data size, (writeFirmwareBytes env s data size).1 = ESP_OK →
      (writeFirmwareBytes env s data size).2.self._firmwareSize
        = (s.self._firmwareSize + size) % WORD ∧
      (s.self._firmwareSize + size < WORD →
        (writeFirmwareBytes env s data size).2.self._firmwareSize
          = s.self._firmwareSize + size)) ∧
    (∀ writes : List (List Nat × Nat), s.self._firmwareSize < WORD →
      (∀ r ∈ (writeSeq env s writes).1, r = ESP_OK) →
      (writeSeq env s writes).2.self._firmwareSize
        = (s.self._firmwareSize + (writes.map Prod.snd).sum) % WORD ∧
      (s.self._firmwareSize + (writes.map Prod.snd).sum < WORD →
        (writeSeq env s writes).2.self._firmwareSize
          = s.self._firmwareSize + (writes.map Prod.snd).sum)) := by
  have one : ∀ (s : State) data size, (writeFirmwareBytes env s data size).1 = ESP_OK →
      (writeFirmwareBytes env s data size).2.self._firmwareSize
        = (s.self._firmwareSize + size) % WORD := by
    intro s data size hok
    rcases writeFirmwareBytes_shape env s data size with ⟨-, h⟩ | ⟨-, hne, h⟩ | ⟨-, -, h⟩
    · rw [h] at hok
      cases hok
    · rw [h] at hok
      exact absurd hok hne
    · rw [h]
      rfl
  have many : ∀ (writes : List (List Nat × Nat)) (s : State),
      (∀ r ∈ (writeSeq env s writes).1, r = ESP_OK) →
      (writeSeq env s writes).2.self._firmwareSize
        = (s.self._firmwareSize + (writes.map Prod.snd).sum) % WORD ∨
      (writes = [] ∧ (writeSeq env s writes).2 = s) := by
    intro writes
    induction writes with
    | nil =>
      intro s _
      exact Or.inr ⟨rfl, rfl⟩
    | cons w ws ih =>
      intro s hall
      left
      simp only [writeSeq, List.mem_cons, forall_eq_or_imp] at hall ⊢
      obtain ⟨h1, h2⟩ := hall
      have hfirst := one s w.1 w.2 h1
      rcases ih (writeFirmwareBytes env s w.1 w.2).2 h2 with h | ⟨hnil, hsame⟩
      · rw [h, hfirst, List.map_cons, List.sum_cons, Nat.mod_add_mod]
        congr 1
        omega
      · rw [hsame, hfirst, hnil]
        simp
  refine ⟨?_, ?_⟩
  · intro data size hok
    have h := one s data size hok
    exact ⟨h, fun hlt => by rw [h, Nat.mod_eq_of_lt hlt]⟩
  · intro writes hfs hall
    have h : (writeSeq env s writes).2.self._firmwareSize
        = (s.self._firmwareSize + (writes.map Prod.snd).sum) % WORD := by
      rcases many writes s hall with h | ⟨hnil, hsame⟩
      · exact h
      · rw [hsame, hnil]
        simp [Nat.mod_eq_of_lt hfs]
    exact ⟨h, fun hlt => by rw [h, Nat.mod_eq_of_lt hlt]⟩

/-- C11 (amended) on two successful writes of 8 and 4 bytes. -/
theorem writeFirmwareBytes_counter_witness :
    (writeSeq (flashEnv image8) (plainOwner 0) [(image8, 8), ([1, 2, 3, 4], 4)]).2.self._firmwareSize
        = ((plainOwner 0).self._firmwareSize
            + ([(image8, 8), ([1, 2, 3, 4], 4)].map Prod.snd).sum) % WORD ∧
      ((plainOwner 0).self._firmwareSize
          + ([(image8, 8), ([1, 2, 3, 4], 4)].map Prod.snd).sum < WORD →
        (writeSeq (flashEnv image8) (plainOwner 0)
            [(image8, 8), ([1, 2, 3, 4], 4)]).2.self._firmwareSize
          = (plainOwner 0).self._firmwareSize
            + ([(image8, 8), ([1, 2, 3, 4], 4)].map Prod.snd).sum) :=
  (writeFirmwareBytes_counter (flashEnv image8) (plainOwner 0)).2
    [(image8, 8), ([1, 2, 3, 4], 4)] (by decide) (by decide)

/-- C12: when `writeFirmwareBytes` is called on the object that owns the active transaction
and `esp_ota_write` returns an error code `e ≠ ESP_OK`, the call returns exactly `e`, the
byte counter is unchanged and so are the flag, the handle and the slot: the object still
owns the transaction, so a later write, finish or abort passes the ownership test. -/
theorem writeFirmwareBytes_error (env : Env) (s : State) (data : List Nat) (size : Nat)
    (e : esp_err_t) (hown : Owns s)
    (hw : env.esp_ota_write s.trace s.self._updateHandle data size = e) (he : e ≠ ESP_OK) :
    writeFirmwareBytes env s data size =
      (e, s.extend [Event.ota_write s.self._updateHandle data size e]) ∧
    (writeFirmwareBytes env s data size).2.self = s.self ∧
    (writeFirmwareBytes env s data size).2.__updateIsRunning = true ∧
    Owns (writeFirmwareBytes env s data size).2 := by
  rcases writeFirmwareBytes_shape env s data size with ⟨hno, -⟩ | ⟨-, -, h⟩ | ⟨-, hok, -⟩
  · exact absurd hown hno
  · rw [hw] at h
    rw [h]
    exact ⟨rfl, rfl, hown.1, hown⟩
  · rw [hw] at hok
    exact absurd hok he

/-- C12 on a flash driver that rejects the write with the code 0x102. -/
theorem writeFirmwareBytes_error_witness :
    writeFirmwareBytes writeFailEnv (plainOwner 8) [1, 2] 2 =
      (258, (plainOwner 8).extend [Event.ota_write (plainOwner 8).self._updateHandle [1, 2] 2 258]) ∧
    (writeFirmwareBytes writeFailEnv (plainOwner 8) [1, 2] 2).2.self = (plainOwner 8).self ∧
    (writeFirmwareBytes writeFailEnv (plainOwner 8) [1, 2] 2).2.__updateIsRunning = true ∧
    Owns (writeFirmwareBytes writeFailEnv (plainOwner 8) [1, 2] 2).2 :=
  writeFirmwareBytes_error writeFailEnv (plainOwner 8) [1, 2] 2 258 ⟨rfl, by decide⟩ rfl
    (by decide)

/-- C13: on an object with no active transaction (the flag is clear or the handle is 0),
`writeFirmwareBytes` returns `ESP_FAIL` and leaves the whole state, the history of platform
calls included, as it was: `esp_ota_write` is not called.  This is the situation of a fresh
object, of an object after `finishUpdate` or `abortUpdate` has returned on its transaction,
and of an object after a `beginUpdate` that found the lock free and failed. -/
theorem writeFirmwareBytes_idle (env : Env) (s : State) (data : List Nat) (size : Nat)
    (hidle : ¬ Owns s) :
    writeFirmwareBytes env s data size = (ESP_FAIL, s) ∧
    writeFirmwareBytes env {} data size = (ESP_FAIL, {}) ∧
    (∀ (u : State) b t, Owns u → finishUpdate env u = some (b, t) →
      writeFirmwareBytes env t data size = (ESP_FAIL, t)) ∧
    (∀ u : State, Owns u → writeFirmwareBytes env (abortUpdate env u).2 data size
      = (ESP_FAIL, (abortUpdate env u).2)) ∧
    (∀ (u : State) imageSize slot, u.__updateIsRunning = false →
      (beginUpdate env u imageSize slot).1 = false →
      writeFirmwareBytes env (beginUpdate env u imageSize slot).2 data size
        = (ESP_FAIL, (beginUpdate env u imageSize slot).2)) := by
  have idle : ∀ u : State, ¬ Owns u → writeFirmwareBytes env u data size = (ESP_FAIL, u) := by
    intro u hu
    rcases writeFirmwareBytes_shape env u data size with ⟨-, h⟩ | ⟨ho, -, -⟩ | ⟨ho, -, -⟩
    · exact h
    · exact absurd ho hu
    · exact absurd ho hu
  have hunlock : ∀ u : State, ¬ Owns (unlockUpdate u) := by
    intro u h
    exact h.2 rfl
  refine ⟨idle s hidle, idle {} (fun h => h.2 rfl), ?_, ?_, ?_⟩
  · intro u b t hown hrun
    apply idle
    rcases finishUpdate_shape env u with ⟨hno, -⟩ | ⟨-, -, h⟩ | ⟨-, -, ⟨-, h⟩ | ⟨evs, -, -, h⟩ |
      ⟨evs, -, -, h⟩⟩
    · exact absurd hown hno
    · rw [h] at hrun
      simp only [Option.some.injEq, Prod.mk.injEq] at hrun
      rw [← hrun.2]
      exact hunlock _
    · rw [h] at hrun
      cases hrun
    · rw [h] at hrun
      simp only [Option.some.injEq, Prod.mk.injEq] at hrun
      rw [← hrun.2]
      exact hunlock _
    · rw [h] at hrun
      simp only [Option.some.injEq, Prod.mk.injEq] at hrun
      rw [← hrun.2]
      exact hunlock _
  · intro u hown
    apply idle
    have hc := (owns_iff u).mpr hown
    simp only [abortUpdate, hc, if_true]
    exact hunlock _
  · intro u imageSize slot hfree hfalse
    apply idle
    revert hfalse
    unfold beginUpdate lockUpdate
    simp only [hfree, Bool.false_eq_true, if_false]
    cases slot with
    | some q =>
      simp only []
      split
      · intro _
        exact hunlock _
      · intro h
        cases h
    | none =>
      simp only []
      cases env.esp_ota_get_next_update_partition u.trace with
      | none =>
        intro _
        exact hunlock _
      | some q =>
        simp only []
        split
        · intro _
          exact hunlock _
        · intro h
          cases h

/-- C13 on an object that finds the lock held by another object. -/
theorem writeFirmwareBytes_idle_witness :
    writeFirmwareBytes (flashEnv image8) lockedOut [1, 2] 2 = (ESP_FAIL, lockedOut) :=
  (writeFirmwareBytes_idle (flashEnv image8) lockedOut [1, 2] 2 (fun h => h.2 rfl)).1

/-! ## Claims about `beginUpdate`, `abortUpdate` and `activateNextUpdatePartition` -/

/-- C14: if the flag `__updateIsRunning` is set when `beginUpdate` is called, on the object
that owns the transaction, on any other object, or with no owner at all, `beginUpdate`
returns false and the state is exactly what it was: the flag stays set, the history gains
no call (no slot is resolved, `esp_ota_begin` is not called) and the byte counter, the
handle and the slot of the object are not reset. -/
theorem beginUpdate_busy (env : Env) (s : State) (imageSize : Nat) (slot : Option Partition)
    (hheld : s.__updateIsRunning = true) :
    beginUpdate env s imageSize slot = (false, s) := by
  simp [beginUpdate, lockUpdate, hheld]

/-- C14 on the object that owns the transaction, with 8 bytes written. -/
theorem beginUpdate_busy_witness :
    beginUpdate (flashEnv image8) (plainOwner 8) 16 none = (false, plainOwner 8) :=
  beginUpdate_busy (flashEnv image8) (plainOwner 8) 16 none rfl

/-- What `beginUpdate` does when it finds the lock free, by cases on the slot and on
`esp_ota_begin`. -/
theorem beginUpdate_shape (env : Env) (s : State) (imageSize : Nat) (slot : Option Partition)
    (hfree : s.__updateIsRunning = false) :
    (resolvedSlot env s.trace slot = none ∧ slot = none ∧
      beginUpdate env s imageSize slot = (false, unlockUpdate
        ({ s with __updateIsRunning := true, self := { s.self with _firmwareSize := 0 } }.extend
          [Event.ota_get_next_update_partition none]))) ∨
    (∃ p evs, resolvedSlot env s.trace slot = some p ∧
      evs = (match slot with
        | some _ => []
        | none => [Event.ota_get_next_update_partition (some p)]) ∧
      ((env.esp_ota_begin (s.trace ++ evs) p imageSize).1 ≠ ESP_OK ∧
        beginUpdate env s imageSize slot = (false, unlockUpdate
          ({ s with
              __updateIsRunning := true
              self := { s.self with
                _firmwareSize := 0, _updatePartition := some p,
                _updateHandle := (env.esp_ota_begin (s.trace ++ evs) p imageSize).2 } }.extend
            (evs ++ [Event.ota_begin p imageSize
              (env.esp_ota_begin (s.trace ++ evs) p imageSize).1
              (env.esp_ota_begin (s.trace ++ evs) p imageSize).2]))) ∨
       (env.esp_ota_begin (s.trace ++ evs) p imageSize).1 = ESP_OK ∧
        beginUpdate env s imageSize slot = (true,
          { s with
              __updateIsRunning := true
              self := { s.self with
                _firmwareSize := 0, _updatePartition := some p,
                _updateHandle := (env.esp_ota_begin (s.trace ++ evs) p imageSize).2 } }.extend
            (evs ++ [Event.ota_begin p imageSize ESP_OK
              (env.esp_ota_begin (s.trace ++ evs) p imageSize).2])))) := by
  cases slot with
  | some q =>
    right
    refine ⟨q, [], rfl, rfl, ?_⟩
    by_cases hok : (env.esp_ota_begin (s.trace ++ []) q imageSize).1 = ESP_OK
    · right
      refine ⟨hok, ?_⟩
      simp only [List.append_nil] at hok ⊢
      simp [beginUpdate, lockUpdate, hfree, hok, State.log, State.extend]
    · left
      refine ⟨hok, ?_⟩
      simp only [List.append_nil] at hok ⊢
      simp [beginUpdate, lockUpdate, hfree, hok, State.log, State.extend]
  | none =>
    cases hn : env.esp_ota_get_next_update_partition s.trace with
    | none =>
      left
      refine ⟨by simp [resolvedSlot, hn], rfl, ?_⟩
      simp [beginUpdate, lockUpdate, hfree, hn, State.log, State.extend]
    | some q =>
      right
      refine ⟨q, [Event.ota_get_next_update_partition (some q)], by simp [resolvedSlot, hn],
        rfl, ?_⟩
      by_cases hok : (env.esp_ota_begin
          (s.trace ++ [Event.ota_get_next_update_partition (some q)]) q imageSize).1 = ESP_OK
      · right
        refine ⟨hok, ?_⟩
        simp [beginUpdate, lockUpdate, hfree, hn, hok, State.log, State.extend]
      · left
        refine ⟨hok, ?_⟩
        simp [beginUpdate, lockUpdate, hfree, hn, hok, State.log, State.extend]

/-- C15: if the lock is free when `beginUpdate` is called and the call returns false,
because no update partition could be resolved for the omitted slot or because
`esp_ota_begin` returned an error, then at return the lock is free again, the handle of the
object is 0 and its update partition is `nullptr`: no transaction is left behind, and one of
these two failures did occur. -/
theorem beginUpdate_failure_releases (env : Env) (s : State) (imageSize : Nat)
    (slot : Option Partition) (hfree : s.__updateIsRunning = false)
    (hfalse : (beginUpdate env s imageSize slot).1 = false) :
    Released (beginUpdate env s imageSize slot).2 ∧
    ¬ Owns (beginUpdate env s imageSize slot).2 ∧
    ((slot = none ∧ env.esp_ota_get_next_update_partition s.trace = none) ∨
      ∃ p tr, resolvedSlot env s.trace slot = some p ∧
        (env.esp_ota_begin tr p imageSize).1 ≠ ESP_OK ∧
        Event.ota_begin p imageSize (env.esp_ota_begin tr p imageSize).1
          (env.esp_ota_begin tr p imageSize).2
          ∈ eventsSince s (beginUpdate env s imageSize slot).2) := by
  have hrel : ∀ u : State, Released (unlockUpdate u) ∧ ¬ Owns (unlockUpdate u) :=
    fun u => ⟨⟨rfl, rfl, rfl⟩, fun h => h.2 rfl⟩
  rcases beginUpdate_shape env s imageSize slot hfree with ⟨hres, hslot, h⟩ |
    ⟨p, evs, hres, -, ⟨hne, h⟩ | ⟨-, h⟩⟩
  · rw [h]
    refine ⟨(hrel _).1, (hrel _).2, Or.inl ⟨hslot, ?_⟩⟩
    rw [hslot] at hres
    exact hres
  · rw [h]
    refine ⟨(hrel _).1, (hrel _).2, Or.inr ⟨p, s.trace ++ evs, hres, hne, ?_⟩⟩
    simp [eventsSince, unlockUpdate, State.extend]
  · rw [h] at hfalse
    cases hfalse

/-- C15 on a platform whose `esp_ota_begin` fails. -/
theorem beginUpdate_failure_releases_witness :
    Released (beginUpdate beginFailEnv {} 16 none).2 ∧
    ¬ Owns (beginUpdate beginFailEnv {} 16 none).2 ∧
    (((none : Option Partition) = none ∧
        beginFailEnv.esp_ota_get_next_update_partition ({} : State).trace = none) ∨
      ∃ p tr, resolvedSlot beginFailEnv ({} : State).trace none = some p ∧
        (beginFailEnv.esp_ota_begin tr p 16).1 ≠ ESP_OK ∧
        Event.ota_begin p 16 (beginFailEnv.esp_ota_begin tr p 16).1
          (beginFailEnv.esp_ota_begin tr p 16).2
          ∈ eventsSince {} (beginUpdate beginFailEnv {} 16 none).2) :=
  beginUpdate_failure_releases beginFailEnv {} 16 none rfl rfl

/-- C16: whenever `beginUpdate` returns true, the byte counter is 0 whatever it was before,
the flag `__updateIsRunning` is set, the slot of the transaction is the caller's partition
if one was given and otherwise the partition `esp_ota_get_next_update_partition` returned,
and the last platform call was `esp_ota_begin` on that slot with the given image size, with
the result `ESP_OK` and the handle the object now holds. -/
theorem beginUpdate_success (env : Env) (s : State) (imageSize : Nat) (slot : Option Partition)
    (t : State) (hrun : beginUpdate env s imageSize slot = (true, t)) :
    t.self._firmwareSize = 0 ∧ t.__updateIsRunning = true ∧
    t.self._updatePartition = resolvedSlot env s.trace slot ∧
    ∃ p pre, t.self._updatePartition = some p ∧
      (slot = some p ∨ (slot = none ∧ env.esp_ota_get_next_update_partition s.trace = some p)) ∧
      eventsSince s t = pre ++ [Event.ota_begin p imageSize ESP_OK t.self._updateHandle] := by
  have hfree : s.__updateIsRunning = false := by
    by_contra hne
    have hheld : s.__updateIsRunning = true := by simpa using hne
    rw [beginUpdate_held env s imageSize slot hheld] at hrun
    cases hrun
  rcases beginUpdate_shape env s imageSize slot hfree with ⟨-, -, h⟩ |
    ⟨p, evs, hres, hevs, ⟨-, h⟩ | ⟨-, h⟩⟩
  · rw [h] at hrun
    cases hrun
  · rw [h] at hrun
    cases hrun
  · rw [h] at hrun
    simp only [Prod.mk.injEq, true_and] at hrun
    rw [← hrun]
    refine ⟨rfl, rfl, hres.symm, p, evs, rfl, ?_, ?_⟩
    · cases slot with
      | some q =>
        left
        simp only [resolvedSlot] at hres
        exact hres
      | none =>
        right
        simp only [resolvedSlot] at hres
        exact ⟨rfl, hres⟩
    · simp [eventsSince, State.extend]

/-- C16 on a fresh object, with the slot omitted: the transaction runs on partition 7, the
next update partition, with handle 1. -/
theorem beginUpdate_success_witness :
    (beginUpdate (flashEnv image8) {} 8 none).2.self._firmwareSize = 0 ∧
    (beginUpdate (flashEnv image8) {} 8 none).2.__updateIsRunning = true ∧
    (beginUpdate (flashEnv image8) {} 8 none).2.self._updatePartition
      = resolvedSlot (flashEnv image8) ({} : State).trace none ∧
    ∃ p pre, (beginUpdate (flashEnv image8) {} 8 none).2.self._updatePartition = some p ∧
      ((none : Option Partition) = some p ∨ ((none : Option Partition) = none ∧
        (flashEnv image8).esp_ota_get_next_update_partition ({} : State).trace = some p)) ∧
      eventsSince {} (beginUpdate (flashEnv image8) {} 8 none).2 = pre ++
        [Event.ota_begin p 8 ESP_OK (beginUpdate (flashEnv image8) {} 8 none).2.self._updateHandle] :=
  beginUpdate_success (flashEnv image8) {} 8 none (beginUpdate (flashEnv image8) {} 8 none).2 rfl

/-- C17: `abortUpdate` never calls the boot selector; on an object that owns the active
transaction it calls `esp_ota_end` on the handle and nothing else, returns true whatever
`esp_ota_end` answers, and releases the lock; on an object with no active transaction it
returns false, calls nothing and leaves the whole state as it was. -/
theorem abortUpdate_effect (env : Env) (s : State) :
    (eventsSince s (abortUpdate env s).2).filter Event.isSetBoot = [] ∧
    (Owns s → (abortUpdate env s).1 = true ∧
      eventsSince s (abortUpdate env s).2 = [Event.ota_end s.self._updateHandle
        (env.esp_ota_end s.trace s.self._updateHandle)] ∧
      Released (abortUpdate env s).2) ∧
    (¬ Owns s → abortUpdate env s = (false, s)) := by
  by_cases hown : Owns s
  · have hc := (owns_iff s).mpr hown
    have h : abortUpdate env s = (true, unlockUpdate (s.extend
        [Event.ota_end s.self._updateHandle (env.esp_ota_end s.trace s.self._updateHandle)])) := by
      simp [abortUpdate, hc]
    rw [h]
    refine ⟨?_, fun _ => ⟨rfl, ?_, ⟨rfl, rfl, rfl⟩⟩, fun hno => absurd hown hno⟩
    · rw [eventsSince_unlock_extend]
      rfl
    · rw [eventsSince_unlock_extend]
  · have hc : ¬ (isUpdateRunning s && s.self._updateHandle != 0) = true :=
      fun h => hown ((owns_iff s).mp h)
    have h : abortUpdate env s = (false, s) := by
      simp only [abortUpdate, hc]
      simp
    rw [h]
    refine ⟨?_, fun ho => absurd ho hown, fun _ => rfl⟩
    simp [eventsSince]

/-- C17 on a platform whose `esp_ota_end` fails: the abort still returns true and frees the
lock. -/
theorem abortUpdate_effect_witness :
    (abortUpdate failingEnv (plainOwner 8)).1 = true ∧
    eventsSince (plainOwner 8) (abortUpdate failingEnv (plainOwner 8)).2
      = [Event.ota_end (plainOwner 8).self._updateHandle
          (failingEnv.esp_ota_end (plainOwner 8).trace (plainOwner 8).self._updateHandle)] ∧
    Released (abortUpdate failingEnv (plainOwner 8)).2 :=
  (abortUpdate_effect failingEnv (plainOwner 8)).2.1 ⟨rfl, by decide⟩

/-- C18: `activateNextUpdatePartition`: if the lock is held at entry, it returns false and
the state is unchanged (no slot is resolved, the boot selector is not called, the lock stays
held); if the lock is free at entry, it returns true exactly when
`esp_ota_get_next_update_partition` yields a slot and `esp_ota_set_boot_partition` on that
slot returns `ESP_OK`, the boot selector is called on no other slot, and the lock is free
again at return on every path. -/
theorem activateNextUpdatePartition_effect (env : Env) (s : State) :
    (s.__updateIsRunning = true → activateNextUpdatePartition env s = (false, s)) ∧
    (s.__updateIsRunning = false →
      ((activateNextUpdatePartition env s).1 = true ↔
        ∃ p, env.esp_ota_get_next_update_partition s.trace = some p ∧
          env.esp_ota_set_boot_partition
            (s.trace ++ [Event.ota_get_next_update_partition (some p)]) (some p) = ESP_OK) ∧
      (∀ q res, Event.ota_set_boot_partition q res ∈
          eventsSince s (activateNextUpdatePartition env s).2 →
        q = env.esp_ota_get_next_update_partition s.trace ∧ q ≠ none) ∧
      (activateNextUpdatePartition env s).2.__updateIsRunning = false ∧
      (activateNextUpdatePartition env s).2.self = s.self) := by
  constructor
  · intro hheld
    simp [activateNextUpdatePartition, hheld]
  · intro hfree
    cases hn : env.esp_ota_get_next_update_partition s.trace with
    | none =>
      have h : activateNextUpdatePartition env s = (false,
          { s with trace := s.trace ++ [Event.ota_get_next_update_partition none] }) := by
        simp [activateNextUpdatePartition, hfree, hn, State.log]
      rw [h]
      refine ⟨?_, ?_, hfree, rfl⟩
      · simp
      · intro q res hm
        simp [eventsSince] at hm
    | some p =>
      by_cases hb : env.esp_ota_set_boot_partition
          (s.trace ++ [Event.ota_get_next_update_partition (some p)]) (some p) = ESP_OK
      · have h : activateNextUpdatePartition env s = (true,
            { s with trace := s.trace ++ [Event.ota_get_next_update_partition (some p),
                Event.ota_set_boot_partition (some p) ESP_OK] }) := by
          simp [activateNextUpdatePartition, hfree, hn, hb, State.log]
        rw [h]
        refine ⟨?_, ?_, hfree, rfl⟩
        · simp only [true_iff]
          exact ⟨p, rfl, hb⟩
        · intro q res hm
          simp [eventsSince] at hm
          rw [hm.1]
          simp
      · have h : activateNextUpdatePartition env s = (false,
            { s with trace := s.trace ++ [Event.ota_get_next_update_partition (some p),
                Event.ota_set_boot_partition (some p) (env.esp_ota_set_boot_partition
                  (s.trace ++ [Event.ota_get_next_update_partition (some p)]) (some p))] }) := by
          simp [activateNextUpdatePartition, hfree, hn, hb, State.log]
        rw [h]
        refine ⟨?_, ?_, hfree, rfl⟩
        · simp only [Bool.false_eq_true, false_iff, not_exists, not_and]
          intro q hq
          cases hq
          exact hb
        · intro q res hm
          simp [eventsSince] at hm
          rw [hm.1]
          simp

/-- C18 on an idle object and a platform where every primitive succeeds: the call returns
true and leaves the lock free. -/
theorem activateNextUpdatePartition_effect_witness :
    ((activateNextUpdatePartition (flashEnv image8) {}).1 = true ↔
        ∃ p, (flashEnv image8).esp_ota_get_next_update_partition ({} : State).trace = some p ∧
          (flashEnv image8).esp_ota_set_boot_partition
            (({} : State).trace ++ [Event.ota_get_next_update_partition (some p)]) (some p)
              = ESP_OK) ∧
      (∀ q res, Event.ota_set_boot_partition q res ∈
          eventsSince {} (activateNextUpdatePartition (flashEnv image8) {}).2 →
        q = (flashEnv image8).esp_ota_get_next_update_partition ({} : State).trace ∧ q ≠ none) ∧
      (activateNextUpdatePartition (flashEnv image8) {}).2.__updateIsRunning = false ∧
      (activateNextUpdatePartition (flashEnv image8) {}).2.self = ({} : State).self :=
  (activateNextUpdatePartition_effect (flashEnv image8) {}).2 rfl

/-! ## Claims about the configuration and about other objects -/

/-- C22: for two objects `a` and `b` where `a` owns the active transaction and `b` holds
none: `writeFirmwareBytes` on `b` returns `ESP_FAIL`, `finishUpdate` and `abortUpdate` on
`b` return false, and each of these calls leaves the whole program state as it was: the
flag, every field of `a` and the history of platform calls (no flash or boot selector
primitive is called); `a` still owns the transaction. -/
theorem bystander_calls_are_inert (env : Env) (sys : System) (a b : Nat) (data : List Nat)
    (size : Nat) (hflag : sys.__updateIsRunning = true)
    (ha : (sys.instances a)._updateHandle ≠ 0) (hb : (sys.instances b)._updateHandle = 0) :
    writeFirmwareBytes env (sys.view b) data size = (ESP_FAIL, sys.view b) ∧
    finishUpdate env (sys.view b) = some (false, sys.view b) ∧
    abortUpdate env (sys.view b) = (false, sys.view b) ∧
    step env sys (Call.writeFirmwareBytes b data size) = some sys ∧
    step env sys (Call.finishUpdate b) = some sys ∧
    step env sys (Call.abortUpdate b) = some sys ∧
    a ≠ b ∧ Owns (sys.view a) := by
  have hno : ¬ Owns (sys.view b) := fun h => h.2 hb
  have hput : sys.put b (sys.view b) = sys := by
    cases sys
    simp [System.put, System.view]
  have hw : writeFirmwareBytes env (sys.view b) data size = (ESP_FAIL, sys.view b) := by
    rcases writeFirmwareBytes_shape env (sys.view b) data size with ⟨-, h⟩ | ⟨ho, -, -⟩ |
      ⟨ho, -, -⟩
    · exact h
    · exact absurd ho hno
    · exact absurd ho hno
  have hf : finishUpdate env (sys.view b) = some (false, sys.view b) := by
    rcases finishUpdate_shape env (sys.view b) with ⟨-, h⟩ | ⟨ho, -, -⟩ | ⟨ho, -, -⟩
    · exact h
    · exact absurd ho hno
    · exact absurd ho hno
  have hab : abortUpdate env (sys.view b) = (false, sys.view b) := by
    have hc : ¬ (isUpdateRunning (sys.view b) && (sys.view b).self._updateHandle != 0) = true :=
      fun h => hno ((owns_iff _).mp h)
    simp only [abortUpdate, hc]
    simp
  refine ⟨hw, hf, hab, ?_, ?_, ?_, ?_, ⟨hflag, ha⟩⟩
  · simp only [step, hw, hput]
  · simp only [step, hf, Option.map_some', hput]
  · simp only [step, hab, hput]
  · intro h
    rw [h] at ha
    exact ha hb

/-- C22 on the program `twoObjects`: the calls on object 1 change nothing. -/
theorem bystander_calls_are_inert_witness :
    writeFirmwareBytes (flashEnv image8) (twoObjects.view 1) [1] 1
      = (ESP_FAIL, twoObjects.view 1) ∧
    finishUpdate (flashEnv image8) (twoObjects.view 1) = some (false, twoObjects.view 1) ∧
    abortUpdate (flashEnv image8) (twoObjects.view 1) = (false, twoObjects.view 1) ∧
    step (flashEnv image8) twoObjects (Call.writeFirmwareBytes 1 [1] 1) = some twoObjects ∧
    step (flashEnv image8) twoObjects (Call.finishUpdate 1) = some twoObjects ∧
    step (flashEnv image8) twoObjects (Call.abortUpdate 1) = some twoObjects ∧
    0 ≠ 1 ∧ Owns (twoObjects.view 0) :=
  bystander_calls_are_inert (flashEnv image8) twoObjects 0 1 [1] 1 rfl (by decide) rfl

/-! ## Claims about the flash reads of the firmware check -/

theorem signedCheck_slot10 :
    checkFirmware (flashEnv image10) signedOwner =
      some (false, signedOwner.extend
        [Event.partition_read (some 7) 6 4 (some [3, 0, 0, 0]),
         Event.partition_read (some 7) 1 2 (some [7, 7]),
         Event.hash_begin,
         Event.partition_read (some 7) 0 256 none,
         Event.hash_end]) := by
  rfl

/-- C23 as stated fails: on the signed 10-byte image, whose appendix passes the length
check (`3 + 2 + 4 ≤ 10`), the firmware check reads the 256 bytes at offset 0 for the
hasher, 246 of them beyond the written image; in a slot of exactly 10 bytes that read is
rejected and the check of this well-formed image fails. -/
theorem hash_chunk_read_leaves_image :
    3 + signedOwner.self._magicBytesLength + 4 ≤ signedOwner.self._firmwareSize ∧
    checkFirmware (flashEnv slot256) signedOwner
      = some (true, signedOwner.extend signedCheckEvents) ∧
    Event.partition_read (some 7) 0 256 (some slot256) ∈ signedCheckEvents ∧
    ¬ (0 + 256 ≤ signedOwner.self._firmwareSize) ∧
    (checkFirmware (flashEnv image10) signedOwner).map Prod.fst = some false := by
  refine ⟨by decide, signedCheck_run, ?_, by decide, ?_⟩
  · simp [signedCheckEvents]
  · rw [signedCheck_slot10]
    rfl

theorem checkFirmwareSignature_read_ranges (env : Env) (u : State) (L : Nat) (b : Bool)
    (t : State) (hrun : checkFirmwareSignature env u L = some (b, t))
    (hfit : L + 4 ≤ u.self._firmwareSize) (hfs : u.self._firmwareSize < WORD) :
    ∀ p off len r, Event.partition_read p off len r ∈ eventsSince u t →
      ReadInImageOrChunk u.self._firmwareSize (u.self._firmwareSize - L - 4) off len := by
  have hoff := wsub_wsub u.self._firmwareSize L hfit hfs
  intro p off len r hm
  rcases checkFirmwareSignature_shape env u L with ⟨-, h1⟩ | ⟨-, -, h1⟩ |
    ⟨-, h, -, ok, mid, ⟨-, -, -, -, hpos, -⟩, h1⟩
  · rw [h1] at hrun
    simp only [Option.some.injEq, Prod.mk.injEq] at hrun
    rw [← hrun.2] at hm
    simp [eventsSince] at hm
  · rw [h1] at hrun
    cases hrun
  · rw [hoff] at h1 hpos
    have hmid : ∀ p off len r, Event.partition_read p off len r ∈ mid →
        ReadInImageOrChunk u.self._firmwareSize (u.self._firmwareSize - L - 4) off len := by
      intro p off len r hm
      obtain ⟨h1, h2, h3⟩ := hpos (by omega) p off len r hm
      exact Or.inr ⟨h1, h3, h2⟩
    rcases h1 with ⟨-, h1⟩ | ⟨-, ⟨-, h1⟩ | ⟨-, ⟨-, h1⟩ | ⟨sig, -, ⟨-, h1⟩ | ⟨v, -, h1⟩⟩⟩⟩
    · rw [h1] at hrun
      simp only [Option.some.injEq, Prod.mk.injEq] at hrun
      rw [← hrun.2, eventsSince_extend] at hm
      simp only [List.mem_cons] at hm
      rcases hm with hm | hm
      · cases hm
      · exact hmid p off len r hm
    · rw [h1] at hrun
      cases hrun
    · rw [h1] at hrun
      simp only [Option.some.injEq, Prod.mk.injEq] at hrun
      rw [← hrun.2, eventsSince_extend] at hm
      simp only [List.cons_append, List.mem_cons, List.mem_append, List.mem_singleton,
        List.not_mem_nil, or_false] at hm
      rcases hm with hm | hm | hm | hm
      · cases hm
      · exact hmid p off len r hm
      · cases hm
      · cases hm
        left
        omega
    · rw [h1] at hrun
      cases hrun
    · rw [h1] at hrun
      simp only [Option.some.injEq, Prod.mk.injEq] at hrun
      rw [← hrun.2, eventsSince_extend] at hm
      simp only [List.cons_append, List.mem_cons, List.mem_append, List.mem_singleton,
        List.not_mem_nil, or_false] at hm
      rcases hm with hm | hm | hm | hm | hm
      · cases hm
      · exact hmid p off len r hm
      · cases hm
      · cases hm
        left
        omega
      · cases hm

theorem signature_tail_ranges (env : Env) (s : State) (L : Nat) (b : Bool) (t : State)
    (evs0 : List Event)
    (hrun : (if signatureUsed (s.extend evs0).self = true then
        checkFirmwareSignature env (s.extend evs0) L
      else some (true, s.extend evs0)) = some (b, t))
    (hfit : L + 4 ≤ s.self._firmwareSize) (hfs : s.self._firmwareSize < WORD)
    (h0 : ∀ p off len r, Event.partition_read p off len r ∈ evs0 →
      ReadInImageOrChunk s.self._firmwareSize (s.self._firmwareSize - L - 4) off len) :
    ∀ p off len r, Event.partition_read p off len r ∈ eventsSince s t →
      ReadInImageOrChunk s.self._firmwareSize (s.self._firmwareSize - L - 4) off len := by
  intro p off len r hm
  split at hrun
  · obtain ⟨evs2, h3, -⟩ := checkFirmwareSignature_frame _ _ _ _ _ hrun
    have key := checkFirmwareSignature_read_ranges env (s.extend evs0) L b t hrun hfit hfs
    rw [h3, eventsSince_extend] at key
    rw [h3, State.extend_extend, eventsSince_extend, List.mem_append] at hm
    rcases hm with hm | hm
    · exact h0 p off len r hm
    · exact key p off len r hm
  · simp only [Option.some.injEq, Prod.mk.injEq] at hrun
    rw [← hrun.2, eventsSince_extend] at hm
    exact h0 p off len r hm

/-- For an image whose appendix passes the length check, every flash read of the firmware
check lies inside the written image or is a hash chunk read. -/
theorem checkFirmware_reads_in_image_or_chunk (env : Env) (s : State) (b : Bool) (t : State)
    (buf : List Nat) (hrun : checkFirmware env s = some (b, t))
    (hr : env.esp_partition_read s.trace s.self._updatePartition
      (wsub s.self._firmwareSize SIZEOF_UINT32) SIZEOF_UINT32 = some buf)
    (hfit : le32 buf + s.self._magicBytesLength + 4 ≤ s.self._firmwareSize)
    (hfs : s.self._firmwareSize < WORD) :
    ∀ p off len r, Event.partition_read p off len r ∈ eventsSince s t →
      ReadInImageOrChunk s.self._firmwareSize (s.self._firmwareSize - le32 buf - 4) off len := by
  have hoff0 : wsub s.self._firmwareSize SIZEOF_UINT32 = s.self._firmwareSize - 4 :=
    wsub_eq_sub _ 4 (by omega) hfs
  have e1 : wadd (le32 buf) s.self._magicBytesLength = le32 buf + s.self._magicBytesLength :=
    wadd_eq _ _ (by omega)
  have hA : wadd (wadd (le32 buf) s.self._magicBytesLength) SIZEOF_UINT32 =
      le32 buf + s.self._magicBytesLength + 4 := by
    rw [e1]
    exact wadd_eq _ 4 (by omega)
  have hnot : ¬ wadd (wadd (le32 buf) s.self._magicBytesLength) SIZEOF_UINT32
      > s.self._firmwareSize := by
    rw [hA]
    omega
  have hfirst : ∀ p off len r, Event.partition_read p off len r ∈
      [Event.partition_read s.self._updatePartition
        (wsub s.self._firmwareSize SIZEOF_UINT32) SIZEOF_UINT32 (some buf)] →
      ReadInImageOrChunk s.self._firmwareSize (s.self._firmwareSize - le32 buf - 4) off len := by
    intro p off len r hm
    simp only [List.mem_singleton] at hm
    cases hm
    left
    rw [hoff0]
    simp only [SIZEOF_UINT32]
    omega
  by_cases hM : s.self._magicBytesLength = 0
  · rw [checkFirmware_no_magic env s buf hr hnot hM] at hrun
    exact signature_tail_ranges env s _ b t _ hrun (by omega) hfs hfirst
  · rcases checkMagicBytes_shape env (s.extend [Event.partition_read s.self._updatePartition
        (wsub s.self._firmwareSize SIZEOF_UINT32) SIZEOF_UINT32 (some buf)])
        (s.self._firmwareSize - wadd (wadd (le32 buf) s.self._magicBytesLength) SIZEOF_UINT32)
      with ⟨h0, -⟩ | ⟨-, -, h1⟩ | ⟨-, bytes, -, ⟨-, h1⟩ | ⟨magic, -, h1⟩⟩
    · exact absurd h0 hM
    · rw [checkFirmware_magic_false env s _ _ hr hnot hM h1] at hrun
      simp only [Option.some.injEq, Prod.mk.injEq] at hrun
      intro p off len r hm
      rw [← hrun.2, State.extend_extend, eventsSince_extend, List.mem_append] at hm
      rcases hm with hm | hm
      · exact hfirst p off len r hm
      · simp only [State.extend_self, List.mem_singleton] at hm
        cases hm
        left
        rw [hA]
        omega
    · rw [checkFirmware_magic_crash env s _ hr hnot hM h1] at hrun
      cases hrun
    · simp only [State.extend_self, State.extend_extend] at h1
      have hboth : ∀ p off len r, Event.partition_read p off len r ∈
          [Event.partition_read s.self._updatePartition
            (wsub s.self._firmwareSize SIZEOF_UINT32) SIZEOF_UINT32 (some buf)] ++
          [Event.partition_read s.self._updatePartition
            (s.self._firmwareSize - wadd (wadd (le32 buf) s.self._magicBytesLength)
              SIZEOF_UINT32) s.self._magicBytesLength (some bytes)] →
          ReadInImageOrChunk s.self._firmwareSize (s.self._firmwareSize - le32 buf - 4)
            off len := by
        intro p off len r hm
        rw [List.mem_append] at hm
        rcases hm with hm | hm
        · exact hfirst p off len r hm
        · simp only [List.mem_singleton] at hm
          cases hm
          left
          rw [hA]
          omega
      cases hcmp : memcmpEq magic bytes s.self._magicBytesLength with
      | false =>
        rw [hcmp] at h1
        rw [checkFirmware_magic_false env s _ _ hr hnot hM h1] at hrun
        simp only [Option.some.injEq, Prod.mk.injEq] at hrun
        intro p off len r hm
        rw [← hrun.2, eventsSince_extend] at hm
        exact hboth p off len r hm
      | true =>
        rw [hcmp] at h1
        rw [checkFirmware_magic_true env s _ _ hr hnot hM h1] at hrun
        exact signature_tail_ranges env s _ b t _ hrun (by omega) hfs hboth

theorem checkFirmwareSignature_addData (env : Env) (u : State) (L : Nat) (b : Bool)
    (t : State) (hrun : checkFirmwareSignature env u L = some (b, t))
    (hfit : L + 4 ≤ u.self._firmwareSize) (hfs : u.self._firmwareSize < WORD) :
    AddDataWithinBody (u.self._firmwareSize - L - 4) (eventsSince u t) := by
  have hoff := wsub_wsub u.self._firmwareSize L hfit hfs
  rcases checkFirmwareSignature_shape env u L with ⟨-, h1⟩ | ⟨-, -, h1⟩ |
    ⟨-, h, -, ok, mid, ⟨-, -, -, -, -, hchunk⟩, h1⟩
  · rw [h1] at hrun
    simp only [Option.some.injEq, Prod.mk.injEq] at hrun
    rw [← hrun.2]
    exact addDataWithinBody_of_none _ _ (by simp [eventsSince])
  · rw [h1] at hrun
    cases hrun
  · rw [hoff] at h1 hchunk
    have hmid := hchunk (by omega)
    have hall : ∀ tail : List Event, (∀ d, Event.hash_addData d ∉ tail) →
        AddDataWithinBody (u.self._firmwareSize - L - 4) (Event.hash_begin :: mid ++ tail) := by
      intro tail ht
      have hsplit : Event.hash_begin :: mid ++ tail = [Event.hash_begin] ++ (mid ++ tail) := by
        simp
      rw [hsplit]
      exact addDataWithinBody_append _ _ _ (addDataWithinBody_of_none _ _ (by simp))
        (addDataWithinBody_append _ _ _ hmid (addDataWithinBody_of_none _ _ ht))
    rcases h1 with ⟨-, h1⟩ | ⟨-, ⟨-, h1⟩ | ⟨-, ⟨-, h1⟩ | ⟨sig, -, ⟨-, h1⟩ | ⟨v, -, h1⟩⟩⟩⟩
    · rw [h1] at hrun
      simp only [Option.some.injEq, Prod.mk.injEq] at hrun
      rw [← hrun.2, eventsSince_extend]
      simpa using hall [] (by simp)
    · rw [h1] at hrun
      cases hrun
    · rw [h1] at hrun
      simp only [Option.some.injEq, Prod.mk.injEq] at hrun
      rw [← hrun.2, eventsSince_extend]
      exact hall _ (by simp)
    · rw [h1] at hrun
      cases hrun
    · rw [h1] at hrun
      simp only [Option.some.injEq, Prod.mk.injEq] at hrun
      rw [← hrun.2, eventsSince_extend]
      exact hall _ (by simp)

theorem signature_tail_addData (env : Env) (s : State) (L : Nat) (b : Bool) (t : State)
    (evs0 : List Event)
    (hrun : (if signatureUsed (s.extend evs0).self = true then
        checkFirmwareSignature env (s.extend evs0) L
      else some (true, s.extend evs0)) = some (b, t))
    (hfit : L + 4 ≤ s.self._firmwareSize) (hfs : s.self._firmwareSize < WORD)
    (h0 : ∀ d, Event.hash_addData d ∉ evs0) :
    AddDataWithinBody (s.self._firmwareSize - L - 4) (eventsSince s t) := by
  split at hrun
  · obtain ⟨evs2, h3, -⟩ := checkFirmwareSignature_frame _ _ _ _ _ hrun
    have key := checkFirmwareSignature_addData env (s.extend evs0) L b t hrun hfit hfs
    rw [h3, eventsSince_extend] at key
    simp only [State.extend_self] at key
    rw [h3, State.extend_extend, eventsSince_extend]
    exact addDataWithinBody_append _ _ _ (addDataWithinBody_of_none _ _ h0) key
  · simp only [Option.some.injEq, Prod.mk.injEq] at hrun
    rw [← hrun.2, eventsSince_extend]
    exact addDataWithinBody_of_none _ _ h0

/-- For an image whose appendix passes the length check, every `addData` of the firmware
check hands to the hasher the bytes of the chunk read just before it, up to the end of the
hashed body. -/
theorem checkFirmware_addData (env : Env) (s : State) (b : Bool) (t : State)
    (buf : List Nat) (hrun : checkFirmware env s = some (b, t))
    (hr : env.esp_partition_read s.trace s.self._updatePartition
      (wsub s.self._firmwareSize SIZEOF_UINT32) SIZEOF_UINT32 = some buf)
    (hfit : le32 buf + s.self._magicBytesLength + 4 ≤ s.self._firmwareSize)
    (hfs : s.self._firmwareSize < WORD) :
    AddDataWithinBody (s.self._firmwareSize - le32 buf - 4) (eventsSince s t) := by
  have e1 : wadd (le32 buf) s.self._magicBytesLength = le32 buf + s.self._magicBytesLength :=
    wadd_eq _ _ (by omega)
  have hA : wadd (wadd (le32 buf) s.self._magicBytesLength) SIZEOF_UINT32 =
      le32 buf + s.self._magicBytesLength + 4 := by
    rw [e1]
    exact wadd_eq _ 4 (by omega)
  have hnot : ¬ wadd (wadd (le32 buf) s.self._magicBytesLength) SIZEOF_UINT32
      > s.self._firmwareSize := by
    rw [hA]
    omega
  by_cases hM : s.self._magicBytesLength = 0
  · rw [checkFirmware_no_magic env s buf hr hnot hM] at hrun
    exact signature_tail_addData env s _ b t _ hrun (by omega) hfs (by simp)
  · rcases checkMagicBytes_shape env (s.extend [Event.partition_read s.self._updatePartition
        (wsub s.self._firmwareSize SIZEOF_UINT32) SIZEOF_UINT32 (some buf)])
        (s.self._firmwareSize - wadd (wadd (le32 buf) s.self._magicBytesLength) SIZEOF_UINT32)
      with ⟨h0, -⟩ | ⟨-, -, h1⟩ | ⟨-, bytes, -, ⟨-, h1⟩ | ⟨magic, -, h1⟩⟩
    · exact absurd h0 hM
    · rw [checkFirmware_magic_false env s _ _ hr hnot hM h1] at hrun
      simp only [Option.some.injEq, Prod.mk.injEq] at hrun
      rw [← hrun.2, State.extend_extend, eventsSince_extend]
      exact addDataWithinBody_of_none _ _ (by simp)
    · rw [checkFirmware_magic_crash env s _ hr hnot hM h1] at hrun
      cases hrun
    · simp only [State.extend_self, State.extend_extend] at h1
      cases hcmp : memcmpEq magic bytes s.self._magicBytesLength with
      | false =>
        rw [hcmp] at h1
        rw [checkFirmware_magic_false env s _ _ hr hnot hM h1] at hrun
        simp only [Option.some.injEq, Prod.mk.injEq] at hrun
        rw [← hrun.2, eventsSince_extend]
        exact addDataWithinBody_of_none _ _ (by simp)
      | true =>
        rw [hcmp] at h1
        rw [checkFirmware_magic_true env s _ _ hr hnot hM h1] at hrun
        exact signature_tail_addData env s _ b t _ hrun (by omega) hfs (by simp)

/-- C23, amended: for an image whose appendix passes the length check
(`L + M + 4 ≤ bytes_written`), every flash read of a run of `checkFirmware` either covers
only offsets inside the written image (the length field, the magic bytes, the signature) or
is a hash chunk read: 256 bytes long, starting at a multiple of 256 below the length
`bytes_written − L − 4` of the hashed body.  A chunk read may therefore extend up to 255
bytes beyond the hashed body and beyond the written image; and every `addData` of the run
follows at once a successful chunk read, at an offset `off` inside the body, and hands to
the hasher the first `min 256 (bytes_written − L − 4 − off)` bytes that read delivered: the
bytes of the chunk up to the end of the body, and none beyond it. -/
theorem checkFirmware_read_ranges (env : Env) (s : State) (b : Bool) (t : State)
    (buf : List Nat) (hrun : checkFirmware env s = some (b, t))
    (hr : env.esp_partition_read s.trace s.self._updatePartition
      (wsub s.self._firmwareSize SIZEOF_UINT32) SIZEOF_UINT32 = some buf)
    (hfit : le32 buf + s.self._magicBytesLength + 4 ≤ s.self._firmwareSize)
    (hfs : s.self._firmwareSize < WORD) :
    (∀ p off len r, Event.partition_read p off len r ∈ eventsSince s t →
      ReadInImageOrChunk s.self._firmwareSize (s.self._firmwareSize - le32 buf - 4) off len) ∧
    (∀ pre d post, eventsSince s t = pre ++ Event.hash_addData d :: post →
      ∃ pre0 p off chunk,
        pre = pre0 ++ [Event.partition_read p off HASH_READ_BUFFER_SIZE (some chunk)] ∧
        off < s.self._firmwareSize - le32 buf - 4 ∧
        d = chunk.take (min HASH_READ_BUFFER_SIZE (s.self._firmwareSize - le32 buf - 4 - off))) :=
  ⟨checkFirmware_reads_in_image_or_chunk env s b t buf hrun hr hfit hfs,
    checkFirmware_addData env s b t buf hrun hr hfit hfs⟩

set_option maxRecDepth 100000 in
/-- C23 (amended) on the signed 10-byte image: the read of 256 bytes at offset 0 is a hash
chunk read, and the `addData` that follows it hands over the 3 bytes of the body. -/
theorem checkFirmware_read_ranges_witness :
    ReadInImageOrChunk signedOwner.self._firmwareSize
      (signedOwner.self._firmwareSize - le32 [3, 0, 0, 0] - 4) 0 256 ∧
    ∃ pre0 p off chunk,
      [Event.partition_read (some 7) 6 4 (some [3, 0, 0, 0]),
       Event.partition_read (some 7) 1 2 (some [7, 7]),
       Event.hash_begin,
       Event.partition_read (some 7) 0 256 (some slot256)] =
        pre0 ++ [Event.partition_read p off HASH_READ_BUFFER_SIZE (some chunk)] ∧
      off < signedOwner.self._firmwareSize - le32 [3, 0, 0, 0] - 4 ∧
      [9, 7, 7] = chunk.take (min HASH_READ_BUFFER_SIZE
        (signedOwner.self._firmwareSize - le32 [3, 0, 0, 0] - 4 - off)) :=
  have h := checkFirmware_read_ranges (flashEnv slot256) signedOwner true
    (signedOwner.extend signedCheckEvents) [3, 0, 0, 0] signedCheck_run (by rfl) (by decide)
    (by decide)
  ⟨h.1 (some 7) 0 256 (some slot256) (by rw [eventsSince_extend]; simp [signedCheckEvents]),
    h.2 _ [9, 7, 7]
      [Event.hash_end, Event.partition_read (some 7) 3 3 (some [9, 7, 7]),
        Event.verify [9, 7, 7] 0 [9, 7, 7] 3 0]
      (by rw [eventsSince_extend]; rfl)⟩

/-! ## Fewer than four bytes written -/

/-- C24: on an object with fewer than 4 bytes written, with any configuration and in any
state, on a platform whose flash read rejects every read that does not lie inside the
slot (of `slotSize` bytes, a 32-bit quantity): `finishUpdate` returns false and the boot
selector is not called.  The offset of the length field, `bytes_written − 4`, wraps
around to `2^32 − 4 + bytes_written`. -/
theorem finishUpdate_short_image (env : Env) (s : State) (slotSize : Nat)
    (hshort : s.self._firmwareSize < 4) (hslot : slotSize < WORD)
    (hreject : ∀ tr p off len, slotSize < off + len → env.esp_partition_read tr p off len = none) :
    wsub s.self._firmwareSize SIZEOF_UINT32 = WORD - 4 + s.self._firmwareSize ∧
    ∃ t, finishUpdate env s = some (false, t) ∧
      (eventsSince s t).filter Event.isSetBoot = [] := by
  have hoff : wsub s.self._firmwareSize SIZEOF_UINT32 = WORD - 4 + s.self._firmwareSize := by
    have h1 : s.self._firmwareSize % WORD = s.self._firmwareSize :=
      Nat.mod_eq_of_lt (by simp only [WORD]; omega)
    have h2 : SIZEOF_UINT32 % WORD = 4 := by decide
    have h3 : ¬ 4 ≤ s.self._firmwareSize := by omega
    simp only [wsub, h1, h2, h3, if_false]
    simp only [WORD] at *
    omega
  refine ⟨hoff, ?_⟩
  rcases finishUpdate_shape env s with ⟨-, h⟩ | ⟨-, -, h⟩ | ⟨hown, hend, ⟨hn, -⟩ | ⟨evs, -, hv, h⟩ |
    ⟨evs, hc, -, -⟩⟩
  · exact ⟨_, h, by simp [eventsSince]⟩
  · refine ⟨_, h, ?_⟩
    rw [eventsSince_unlock_extend]
    rfl
  · have hread := hreject (s.trace ++ [Event.ota_end s.self._updateHandle ESP_OK])
      s.self._updatePartition (wsub s.self._firmwareSize SIZEOF_UINT32) SIZEOF_UINT32
      (by rw [hoff]; simp only [SIZEOF_UINT32, WORD] at *; omega)
    rw [checkFirmware_read_fail env (s.extend [Event.ota_end s.self._updateHandle ESP_OK])
      hread] at hn
    cases hn
  · refine ⟨_, h, ?_⟩
    rw [eventsSince_unlock_extend]
    simp only [List.filter_cons, Event.isSetBoot, Bool.false_eq_true, if_false]
    exact filter_isSetBoot_verification evs hv
  · have hread := hreject (s.trace ++ [Event.ota_end s.self._updateHandle ESP_OK])
      s.self._updatePartition (wsub s.self._firmwareSize SIZEOF_UINT32) SIZEOF_UINT32
      (by rw [hoff]; simp only [SIZEOF_UINT32, WORD] at *; omega)
    rw [checkFirmware_read_fail env (s.extend [Event.ota_end s.self._updateHandle ESP_OK])
      hread] at hc
    simp at hc

/-- C24 on an object with 3 bytes written in a slot of 8 bytes. -/
theorem finishUpdate_short_image_witness :
    wsub (plainOwner 3).self._firmwareSize SIZEOF_UINT32
      = WORD - 4 + (plainOwner 3).self._firmwareSize ∧
    ∃ t, finishUpdate (flashEnv image8) (plainOwner 3) = some (false, t) ∧
      (eventsSince (plainOwner 3) t).filter Event.isSetBoot = [] :=
  finishUpdate_short_image (flashEnv image8) (plainOwner 3) 8 (by decide) (by decide)
    (by
      intro tr p off len h
      have h8 : ¬ off + len ≤ image8.length := by
        simp only [image8, List.length_cons, List.length_nil]
        omega
      simp [flashEnv, h8])

/-! ## Claims about the HTTP downloader -/

/-- A download that returns 0 has seen `ESP_OK` from every `writeFirmwareBytes` call. -/
theorem downloadLoop_writes_ok (writer : FirmwareWriter) (contentLength : Int)
    (reads : List (Option (List Nat))) :
    ∀ (st : State) (total : Int) (writes : List (List Nat × esp_err_t)) (st2 : State)
      (writes2 : List (List Nat × esp_err_t)),
      (∀ w ∈ writes, w.2 = ESP_OK) →
      downloadLoop writer contentLength reads st total writes = some (true, st2, writes2) →
      ∀ w ∈ writes2, w.2 = ESP_OK := by
  induction reads with
  | nil =>
    intro st total writes st2 writes2 _ h
    simp [downloadLoop] at h
  | cons r rest ih =>
    intro st total writes st2 writes2 hall h
    cases r with
    | none => simp [downloadLoop] at h
    | some chunk =>
      simp only [downloadLoop] at h
      split at h
      · cases h
      · split at h
        · simp at h
        · rename_i hok
          have hok2 : (writer st chunk chunk.length).1 = ESP_OK := by simpa using hok
          have hall2 : ∀ w ∈ writes ++ [(chunk, (writer st chunk chunk.length).1)],
              w.2 = ESP_OK := by
            intro w hw
            rw [List.mem_append] at hw
            rcases hw with hw | hw
            · exact hall w hw
            · simp only [List.mem_singleton] at hw
              rw [hw]
              exact hok2
          split at h
          · exact ih _ _ _ _ _ hall2 h
          · simp only [Option.some.injEq, Prod.mk.injEq, true_and] at h
            rw [← h.2]
            exact hall2

/-- C20, the failing input: a response whose headers report no content length (−1) and
whose body `[1, 2, 3, 4]` arrives in two reads, fed to an updater whose writes all succeed.
`downloadFirmware` returns 0 after the first read: the only `writeFirmwareBytes` call
carries `[1, 2]`, not the whole body. -/
theorem downloadFirmware_stops_after_first_read :
    (downloadFirmware chunkedResponse (some (writeFirmwareBytes (flashEnv []))) (plainOwner 0)).map
      (fun r => (r.1, r.2.2)) = some (0, [([1, 2], ESP_OK)]) ∧
    responseBody chunkedResponse = [1, 2, 3, 4] := by
  refine ⟨by rfl, by rfl⟩

end IDFix.FOTA
